import Mathlib

/-!
Verification of the agent-ui core against its specification.

This development shallowly embeds the JavaScript sources of the repository:

* `src/lib/vm2/parser.js` and `src/lib/vm2/schema.js` — the structure
  validator (`parse`), serializer (`print` / `normalizeComponent`) and
  component whitelist;
* `src/lib/vm2/dataBinding.js` — the binding resolver;
* `src/components/vm2/Renderer.jsx` — the render-set computation;
* `src/lib/tools/router.js` and `src/lib/tools/registry.js` — the tool
  router (parameter coercion and validation);
* the ReAct agent (`ReActAgent`) — retry loop and decision logic.

Modelling conventions, used consistently below:

* JavaScript values decoded from JSON are modelled by the inductive type
  `Json`.  `undefined` is modelled as `Option.none` wherever a JS
  expression may be `undefined`; `null` is `Json.null`.  Numbers are
  modelled as integers (every number appearing in the claims is an
  integer; JSON floats play no role in any verified property).
* JS strings are modelled as `List Char` (sequences of Unicode scalars).
* The textual step `JSON.parse` / `JSON.stringify` of the validator is the
  standard bijection between canonical JSON text and finite `Json` trees;
  the embedding works directly on decoded `Json` values, so "for every
  input string" claims are stated over every decoded value.  Where the
  tool router calls `JSON.parse` on a form value, the decoder is passed in
  as an explicit parameter `jparse`.
* A thrown `TypeError` (property access on `null`) is modelled by an
  explicit `crash` outcome.
-/

/-! ## JS character and string primitives -/

/-- JS regex `\w` word characters: ASCII letters, digits, underscore. -/
def isWordChar (c : Char) : Bool :=
  c.isAlpha || c.isDigit || c = '_'

/-- JS regex `\s` whitespace (the characters relevant to ASCII input). -/
def isJsWs (c : Char) : Bool :=
  c = ' ' || c = '\t' || c = '\n' || c = '\r' || c = '\x0b' || c = '\x0c'

/-- ASCII lower-casing, as performed by case-insensitive (`/i`) regex
matching of the all-ASCII dangerous patterns. -/
def jsToLower (c : Char) : Char :=
  if 'A' ≤ c && c ≤ 'Z' then Char.ofNat (c.toNat + 32) else c

/-- `String.prototype.trim`: strip whitespace from both ends. -/
def jsTrim (s : List Char) : List Char :=
  ((s.dropWhile isJsWs).reverse.dropWhile isJsWs).reverse

/-- `String.prototype.split(c)` on a one-character separator.  Matches the
JS behaviour `"".split(c) = [""]`. -/
def splitOnChar (c : Char) : List Char → List (List Char)
  | [] => [[]]
  | a :: rest =>
    match splitOnChar c rest with
    | [] => [[]]
    | r :: rs => if a = c then [] :: r :: rs else (a :: r) :: rs

/-- Decimal digits of `n`, used for JS array-index property keys and error
paths. -/
def digitChar (d : Nat) : Char :=
  match d with
  | 0 => '0' | 1 => '1' | 2 => '2' | 3 => '3' | 4 => '4'
  | 5 => '5' | 6 => '6' | 7 => '7' | 8 => '8' | _ => '9'

/-- Digit accumulator of `natDec`; the fuel is an upper bound on the
number of digits (any bound ≥ the digit count yields the same list). -/
def natDecGo : Nat → Nat → List Char → List Char
  | 0, _, acc => acc
  | fuel + 1, n, acc =>
    if n = 0 then acc else natDecGo fuel (n / 10) (digitChar (n % 10) :: acc)

def natDec (n : Nat) : List Char :=
  if n = 0 then ['0'] else natDecGo n n []

/-- Parse a string of decimal digits (`/^\d+$/`-shaped) into a `Nat`;
`none` when the string is empty or holds a non-digit. -/
def decNat? : List Char → Option Nat
  | [] => none
  | cs => if cs.all Char.isDigit then
      some (cs.foldl (fun a c => a * 10 + (c.toNat - '0'.toNat)) 0)
    else none

/-- Convenience: the character list of a string literal. -/
def cl (s : String) : List Char := s.data

/-! ## Dangerous-content patterns (`DANGEROUS_PATTERNS`, parser.js)

Each JS regex is embedded as an executable matcher over the lower-cased
character list.  `litThen pat k cs` means: `cs` starts with the literal
`pat`, and continuation `k` matches the rest.  Word boundaries (`\b`) are
threaded through `occurs` as a "previous character is a word character"
flag. -/

/-- Literal-prefix matcher with continuation. -/
def litThen (pat : List Char) (k : List Char → Bool) : List Char → Bool
  | cs =>
    match pat, cs with
    | [], rest => k rest
    | p :: ps, c :: cs' => p = c && litThen ps k cs'
    | _ :: _, [] => false

/-- `\s*` followed by a single required character (maximal munch, which is
equivalent for these patterns since the required character is never
whitespace). -/
def wsThenChar (t : Char) (cs : List Char) : Bool :=
  match cs.dropWhile isJsWs with
  | [] => false
  | c :: _ => c = t

/-- `[a-z]+\s*=` (the tail of the `on…=` handler-attribute pattern). -/
def lettersWsEq (cs : List Char) : Bool :=
  match cs with
  | [] => false
  | c :: rest =>
    ('a' ≤ c && c ≤ 'z') && wsThenChar '=' (rest.dropWhile (fun d => 'a' ≤ d && d ≤ 'z'))

/-- `\b` followed by literal and continuation: matcher taking the
previous-character-is-word flag. -/
def boundaryLit (pat : List Char) (k : List Char → Bool) (prevWord : Bool)
    (cs : List Char) : Bool :=
  !prevWord && litThen pat k cs

/-- One dangerous pattern: a matcher anchored at a position, given the
word-ness of the preceding character. -/
def matchAnywhere (m : Bool → List Char → Bool) : Bool → List Char → Bool
  | prev, [] => m prev []
  | prev, c :: cs => m prev (c :: cs) || matchAnywhere m (isWordChar c) cs

/-- The fifteen matchers of `DANGEROUS_PATTERNS`, in source order, each on
the lower-cased input (all patterns carry the `/i` flag). -/
def dangerousMatchers : List (Bool → List Char → Bool) :=
  [ fun _ => litThen (cl "javascript:") (fun _ => true)
  , boundaryLit (cl "on") lettersWsEq
  , fun _ => litThen (cl "<script") (fun _ => true)
  , fun _ => litThen (cl "</script") (fun _ => true)
  , fun _ => litThen (cl "eval") (wsThenChar '(')
  , fun _ => litThen (cl "function") (wsThenChar '(')
  , fun _ => litThen (cl "settimeout") (wsThenChar '(')
  , fun _ => litThen (cl "setinterval") (wsThenChar '(')
  , boundaryLit (cl "document.") (fun _ => true)
  , boundaryLit (cl "window.") (fun _ => true)
  , fun _ => litThen (cl "innerhtml") (fun _ => true)
  , fun _ => litThen (cl "outerhtml") (fun _ => true)
  , fun _ => litThen (cl ".prototype")
      (fun rest => match rest with | [] => true | c :: _ => !isWordChar c)
  , fun _ => litThen (cl "__proto__") (fun _ => true)
  , fun _ => litThen (cl "constructor") (wsThenChar '[')
  ]

/-- `checkForDangerousContent` (parser.js): does some dangerous pattern
match somewhere in the string? -/
def isDangerousStr (s : List Char) : Bool :=
  dangerousMatchers.any (fun m => matchAnywhere m false (s.map jsToLower))

/-! ## JSON values and JS object semantics -/

/-- Decoded JSON values (the image of `JSON.parse`). -/
inductive Json where
  | null : Json
  | bool : Bool → Json
  | num : Int → Json
  | str : List Char → Json
  | arr : List Json → Json
  | obj : List (List Char × Json) → Json

/-- JS truthiness of a decoded value (`NaN` cannot occur in decoded
JSON). -/
def truthy : Json → Bool
  | .null => false
  | .bool b => b
  | .num n => n ≠ 0
  | .str s => s ≠ []
  | .arr _ => true
  | .obj _ => true

/-- JS `typeof` of a decoded value.  `typeof null` is `"object"`, as in
JS. -/
inductive JsType where
  | object | string | number | boolean
deriving DecidableEq, Repr

def jsTypeof : Json → JsType
  | .null => .object
  | .bool _ => .boolean
  | .num _ => .number
  | .str _ => .string
  | .arr _ => .object
  | .obj _ => .object

/-- First-match association-list lookup (JS objects decoded from JSON have
unique keys, so first-match agrees with JS property lookup). -/
def lookupK (k : List Char) : List (List Char × Json) → Option Json
  | [] => none
  | (k', v) :: rest => if k' = k then some v else lookupK k rest

/-- JS property read `v[k]`, `none` meaning `undefined`.  Strings and
arrays expose index properties and `length`; reading a property of a
primitive never throws.  Reading a property of `null` throws in JS and is
handled by the caller (`jsGetExc`). -/
def jsGet (v : Json) (k : List Char) : Option Json :=
  match v with
  | .obj l => lookupK k l
  | .arr xs =>
    if k = cl "length" then some (.num xs.length)
    else match decNat? k with
      | some i => xs.get? i
      | none => none
  | .str s =>
    if k = cl "length" then some (.num s.length)
    else match decNat? k with
      | some i => (s.get? i).map (fun c => .str [c])
      | none => none
  | _ => none

/-- JS property read that models the `TypeError` thrown on a `null`
base object: `Except.error` is the throw. -/
def jsGetExc (v : Json) (k : List Char) : Except Unit (Option Json) :=
  match v with
  | .null => .error ()
  | _ => .ok (jsGet v k)

/-- JS `Object.keys`: own enumerable keys.  For strings and arrays these
are the index strings (`length` is not enumerable); for other primitives
the list is empty.  `Object.keys(null)` throws and is handled by the
caller. -/
def jsKeys : Json → List (List Char)
  | .obj l => l.map Prod.fst
  | .arr xs => (List.range xs.length).map natDec
  | .str s => (List.range s.length).map natDec
  | _ => []

/-- Truthiness of a possibly-`undefined` value. -/
def truthyO : Option Json → Bool
  | none => false
  | some v => truthy v

/-! ## Security scan (`checkObjectForDangerousContent`, parser.js) -/

/-- Error codes of the structure validator (plus downstream layers).
Human-readable `message` strings are not modelled; codes and structured
`details` are. -/
inductive ECode where
  | JSON_SYNTAX | SCHEMA_INVALID | UNKNOWN_COMPONENT
  | INVALID_REFERENCE | SECURITY_VIOLATION
deriving DecidableEq, Repr

/-- The structured `details` payloads produced by the validator, one
constructor per construction site in the source. -/
inductive EDetails where
  /-- `{ received: typeof data }` -/
  | received (t : JsType)
  /-- `{ field, path }` -/
  | missingField (field : List Char) (path : List Char)
  /-- `{ field, received }` -/
  | fieldReceived (field : List Char) (t : JsType)
  /-- `{ content: obj.substring(0,100), reason, path }` (the matched
  pattern inside `reason` is not modelled) -/
  | security (content : List Char) (path : List Char)
  /-- `{ index, received }` -/
  | entryReceived (index : Nat) (t : JsType)
  /-- `{ id, index }` -/
  | duplicate (id : List Char) (index : Nat)
  /-- `{ path }` -/
  | atPath (path : List Char)
  /-- `{ componentId }` -/
  | invalidStructure (componentId : List Char)
  /-- `{ type, allowed }` -/
  | unknownComponent (ctype : List Char) (allowed : List (List Char))
  /-- `{ componentId: entry.id, referencedId }` -/
  | invalidReference (componentId : Option Json) (referencedId : Json)

/-- A validation error: code plus structured details. -/
structure PErr where
  code : ECode
  details : EDetails

/-- Path extension for an object member, `path ? path.key : key`. -/
def dotPath (path key : List Char) : List Char :=
  if path = [] then key else path ++ '.' :: key

/-- Path extension for an array element, `path[i]`. -/
def idxPath (path : List Char) (i : Nat) : List Char :=
  path ++ '[' :: (natDec i ++ [']'])

mutual

/-- `checkObjectForDangerousContent`: depth-first walk over every string
leaf; returns the first `SECURITY_VIOLATION` error, or `none`. -/
def checkJson : Json → List Char → Option PErr
  | .str cs, p =>
    if isDangerousStr cs then some ⟨.SECURITY_VIOLATION, .security (cs.take 100) p⟩
    else none
  | .arr l, p => checkArrJ l p 0
  | .obj l, p => checkObjJ l p
  | _, _ => none

def checkArrJ : List Json → List Char → Nat → Option PErr
  | [], _, _ => none
  | x :: xs, p, i =>
    match checkJson x (idxPath p i) with
    | some e => some e
    | none => checkArrJ xs p (i + 1)

def checkObjJ : List (List Char × Json) → List Char → Option PErr
  | [], _ => none
  | (k, v) :: rest, p =>
    match checkJson v (dotPath p k) with
    | some e => some e
    | none => checkObjJ rest p

end

/-- Specification-side reading of the scan: some string leaf of the value
matches a dangerous pattern. -/
inductive HasDanger : Json → Prop where
  | str {cs : List Char} : isDangerousStr cs = true → HasDanger (.str cs)
  | arrMem {l : List Json} {j : Json} : j ∈ l → HasDanger j → HasDanger (.arr l)
  | objMem {l : List (List Char × Json)} {k : List Char} {v : Json} :
      (k, v) ∈ l → HasDanger v → HasDanger (.obj l)

/-- Structural induction over `Json` with access to list members. -/
def Json.indMem {P : Json → Prop} (hnull : P .null) (hbool : ∀ b, P (.bool b))
    (hnum : ∀ n, P (.num n)) (hstr : ∀ s, P (.str s))
    (harr : ∀ l, (∀ x, x ∈ l → P x) → P (.arr l))
    (hobj : ∀ l, (∀ kv, kv ∈ l → P kv.2) → P (.obj l)) : ∀ j, P j
  | .null => hnull
  | .bool b => hbool b
  | .num n => hnum n
  | .str s => hstr s
  | .arr l => harr l (fun x _ => Json.indMem hnull hbool hnum hstr harr hobj x)
  | .obj l => hobj l (fun kv _ => Json.indMem hnull hbool hnum hstr harr hobj kv.2)
termination_by j => sizeOf j
decreasing_by
  · have := List.sizeOf_lt_of_mem (by assumption : x ∈ l)
    simp only [Json.arr.sizeOf_spec]; omega
  · have h1 := List.sizeOf_lt_of_mem (by assumption : kv ∈ l)
    have h2 : sizeOf kv.2 < sizeOf kv := by
      obtain ⟨a, b⟩ := kv; simp only [Prod.mk.sizeOf_spec]; omega
    simp only [Json.obj.sizeOf_spec]; omega

/-! ## Component schema (`schema.js`) -/

/-- `COMPONENT_WHITELIST`: the seven approved component kinds. -/
def COMPONENT_WHITELIST : List (List Char) :=
  [cl "TextInput", cl "Select", cl "Checkbox", cl "Text",
   cl "Alert", cl "Table", cl "Button"]

/-- `isWhitelisted`. -/
def isWhitelisted (t : List Char) : Bool := t ∈ COMPONENT_WHITELIST

/-- `getComponentType`: the single own key of the component object, or
`none` when the value is not an object or does not have exactly one key. -/
def getComponentType (component : Json) : Option (List Char) :=
  if !truthy component || jsTypeof component ≠ .object then none
  else
    match jsKeys component with
    | [k] => some k
    | _ => none

/-- `validateSurfaceUpdateStructure`: `none` means valid. -/
def validateSurfaceUpdateStructure (data : Json) : Option PErr :=
  if !truthy data || jsTypeof data ≠ .object then
    some ⟨.SCHEMA_INVALID, .received (jsTypeof data)⟩
  else if !truthyO (jsGet data (cl "surfaceUpdate")) then
    some ⟨.SCHEMA_INVALID, .missingField (cl "surfaceUpdate") (cl "root")⟩
  else
    match jsGet data (cl "surfaceUpdate") with
    | none => some ⟨.SCHEMA_INVALID, .missingField (cl "surfaceUpdate") (cl "root")⟩
    | some su =>
      if jsTypeof su ≠ .object then
        some ⟨.SCHEMA_INVALID, .fieldReceived (cl "surfaceUpdate") (jsTypeof su)⟩
      else
        match jsGet su (cl "surfaceId") with
        | some (.str _) =>
          match jsGet su (cl "components") with
          | some (.arr _) => none
          | _ => some ⟨.SCHEMA_INVALID, .missingField (cl "components") (cl "surfaceUpdate")⟩
        | _ => some ⟨.SCHEMA_INVALID, .missingField (cl "surfaceId") (cl "surfaceUpdate")⟩

/-- `validateComponentEntry`: `none` means valid. -/
def validateComponentEntry (entry : Json) (index : Nat) : Option PErr :=
  if !truthy entry || jsTypeof entry ≠ .object then
    some ⟨.SCHEMA_INVALID, .entryReceived index (jsTypeof entry)⟩
  else
    match jsGet entry (cl "id") with
    | some (.str id) =>
      if jsTrim id = [] then
        some ⟨.SCHEMA_INVALID,
          .missingField (cl "id") (cl "surfaceUpdate.components" ++ '[' :: (natDec index ++ [']']))⟩
      else
        match jsGet entry (cl "component") with
        | some comp =>
          if !truthy comp || jsTypeof comp ≠ .object then
            some ⟨.SCHEMA_INVALID,
              .missingField (cl "component") (cl "surfaceUpdate.components" ++ '[' :: (natDec index ++ [']']))⟩
          else
            match getComponentType comp with
            | some _ => none
            | none => some ⟨.SCHEMA_INVALID,
                .atPath (cl "surfaceUpdate.components" ++ '[' :: (natDec index ++ cl "].component"))⟩
        | none => some ⟨.SCHEMA_INVALID,
            .missingField (cl "component") (cl "surfaceUpdate.components" ++ '[' :: (natDec index ++ [']']))⟩
    | _ => some ⟨.SCHEMA_INVALID,
        .missingField (cl "id") (cl "surfaceUpdate.components" ++ '[' :: (natDec index ++ [']']))⟩

/-- `validateComponentType` (parser.js): whitelist check, returning the
kind on success. -/
def validateComponentType (component : Json) (componentId : List Char) :
    Except PErr (List Char) :=
  match getComponentType component with
  | none => .error ⟨.SCHEMA_INVALID, .invalidStructure componentId⟩
  | some t =>
    if isWhitelisted t then .ok t
    else .error ⟨.UNKNOWN_COMPONENT, .unknownComponent t COMPONENT_WHITELIST⟩

/-! ## The validator `parse` (parser.js) -/

/-- The string value of `entry.id` (total helper for statements; equals
the JS read on every entry that passed `validateComponentEntry`). -/
def idOf (entry : Json) : List Char :=
  match jsGet entry (cl "id") with
  | some (.str s) => s
  | _ => []

/-- Step 4 of `parse`: per-component validation and id collection.
`seen` is the `componentIds` set built so far; on success the complete id
set is returned. -/
def componentLoop : List Json → List (List Char) → Nat → Except PErr (List (List Char))
  | [], seen, _ => .ok seen
  | entry :: rest, seen, i =>
    match validateComponentEntry entry i with
    | some e => .error e
    | none =>
      if idOf entry ∈ seen then
        .error ⟨.SCHEMA_INVALID, .duplicate (idOf entry) i⟩
      else
        match validateComponentType (match jsGet entry (cl "component") with
            | some c => c | none => .null) (idOf entry) with
        | .error e => .error e
        | .ok _ => componentLoop rest (idOf entry :: seen) (i + 1)

/-- `componentIds.has(value)`: a JS `Set` of strings holds `value` exactly
when `value` is one of the stored strings. -/
def idsHas (ids : List (List Char)) : Json → Bool
  | .str s => s ∈ ids
  | _ => false

/-- Outcome of `resolveReferences`: valid, a returned error, or a thrown
`TypeError` (property access on `null`/`undefined` props). -/
inductive RefOut where
  | ok
  | err (e : PErr)
  | crash

/-- The Button-child check of one `resolveReferences` entry:
`if (type === 'Button' && props.child)`.  The read of `props.child`
happens only for Buttons and throws when props is null/undefined. -/
def refChildCheck (type : Option (List Char)) (propsO : Option Json)
    (entry : Json) (ids : List (List Char)) : RefOut :=
  if type = some (cl "Button") then
    match propsO with
    | none => .crash
    | some .null => .crash
    | some props =>
      match jsGet props (cl "child") with
      | some child =>
        if truthy child then
          if idsHas ids child then .ok
          else .err ⟨.INVALID_REFERENCE,
            .invalidReference (jsGet entry (cl "id")) child⟩
        else .ok
      | none => .ok
  else .ok

/-- The `ref` check of one `resolveReferences` entry:
`if (props.ref && typeof props.ref === 'string')`. -/
def refRefCheck (propsO : Option Json) (entry : Json)
    (ids : List (List Char)) : RefOut :=
  match propsO with
  | none => .crash
  | some .null => .crash
  | some props =>
    match jsGet props (cl "ref") with
    | some (.str r) =>
      if r ≠ [] then
        if r ∈ ids then .ok
        else .err ⟨.INVALID_REFERENCE,
          .invalidReference (jsGet entry (cl "id")) (.str r)⟩
      else .ok
    | _ => .ok

/-- `entry.component[type]` with the JS `String(null) = "null"` key for a
missing type; throws on a null/undefined component. -/
def propsExc (compO : Option Json) (typeKey : List Char) : Except Unit (Option Json) :=
  match compO with
  | none => .error ()
  | some c => jsGetExc c typeKey

/-- The two reference checks of one entry, in source order. -/
def resolveRefChecks (type : Option (List Char)) (propsO : Option Json)
    (entry : Json) (ids : List (List Char)) : RefOut :=
  match refChildCheck type propsO entry ids with
  | .err e => .err e
  | .crash => .crash
  | .ok => refRefCheck propsO entry ids

/-- The body of one `resolveReferences` entry after reading
`entry.component`. -/
def resolveRefEntryBody (compO : Option Json) (entry : Json)
    (ids : List (List Char)) : RefOut :=
  let type := match compO with
    | some c => getComponentType c
    | none => none
  let typeKey := match type with
    | some t => t
    | none => cl "null"
  match propsExc compO typeKey with
  | .error _ => .crash
  | .ok propsO => resolveRefChecks type propsO entry ids

/-- One entry of the `resolveReferences` loop. -/
def resolveRefEntry (entry : Json) (ids : List (List Char)) : RefOut :=
  match jsGetExc entry (cl "component") with
  | .error _ => .crash
  | .ok compO => resolveRefEntryBody compO entry ids

/-- `resolveReferences` (parser.js). -/
def resolveRefs : List Json → List (List Char) → RefOut
  | [], _ => .ok
  | entry :: rest, ids =>
    match resolveRefEntry entry ids with
    | .ok => resolveRefs rest ids
    | .err e => .err e
    | .crash => .crash

/-- `data.surfaceUpdate.components` as a list (the real list whenever the
structure validation passed). -/
def componentsOf (d : Json) : List Json :=
  match jsGet d (cl "surfaceUpdate") with
  | some su =>
    match jsGet su (cl "components") with
    | some (.arr l) => l
    | _ => []
  | none => []

/-- Outcome of `parse`: success (the decoded data, returned unchanged), a
structured error, or a thrown `TypeError`. -/
inductive POut where
  | ok (d : Json)
  | err (e : PErr)
  | crash

/-- `parse` (parser.js), on a decoded value.  The textual step 1
(`JSON.parse`, error `JSON_SYNTAX`) is the standard JSON decoding; all
further steps are embedded here in source order: structure validation,
security scan, per-component validation, reference resolution. -/
def parse (d : Json) : POut :=
  match validateSurfaceUpdateStructure d with
  | some e => .err e
  | none =>
    match checkJson d [] with
    | some e => .err e
    | none =>
      match componentLoop (componentsOf d) [] 0 with
      | .error e => .err e
      | .ok ids =>
        match resolveRefs (componentsOf d) ids with
        | .err e => .err e
        | .crash => .crash
        | .ok => .ok d

/-! ## Serializer `print` / `normalizeComponent` (parser.js) -/

/-- Lexicographic comparison of strings by Unicode scalar value, the
default `Array.prototype.sort()` comparison on these keys. -/
def strLe : List Char → List Char → Bool
  | [], _ => true
  | _ :: _, [] => false
  | a :: as, b :: bs => if a = b then strLe as bs else decide (a < b)

/-- The sort relation used for property keys. -/
def KeyLe (a b : List Char) : Prop := strLe a b = true

instance : DecidableRel KeyLe := fun _ _ => inferInstanceAs (Decidable (_ = true))

instance : IsTotal (List Char) KeyLe where
  total a b := by
    induction a generalizing b with
    | nil => left; rfl
    | cons x xs ih =>
      cases b with
      | nil => right; rfl
      | cons y ys =>
        by_cases h : x = y
        · subst h
          rcases ih ys with h' | h'
          · left; simpa [KeyLe, strLe] using h'
          · right; simpa [KeyLe, strLe] using h'
        · rcases lt_or_gt_of_ne h with hlt | hgt
          · left; simp [KeyLe, strLe, h, hlt]
          · right; simp [KeyLe, strLe, Ne.symm h, not_lt_of_gt hgt, hgt]

instance : IsTrans (List Char) KeyLe where
  trans a b c hab hbc := by
    induction a generalizing b c with
    | nil => rfl
    | cons x xs ih =>
      cases b with
      | nil => simp [KeyLe, strLe] at hab
      | cons y ys =>
        cases c with
        | nil => simp [KeyLe, strLe] at hbc
        | cons z zs =>
          simp only [KeyLe, strLe] at hab hbc ⊢
          by_cases hxy : x = y
          · subst hxy
            by_cases hyz : x = z
            · subst hyz
              simp only [if_pos rfl] at hab hbc ⊢
              exact ih _ _ (by simpa [KeyLe] using hab) (by simpa [KeyLe] using hbc)
            · simp only [if_pos rfl] at hab
              simpa [hyz] using hbc
          · simp only [if_neg hxy] at hab
            by_cases hyz : y = z
            · subst hyz; simpa [hxy] using hab
            · simp only [if_neg hyz] at hbc
              have hxz : x < z := lt_trans (by simpa using hab) (by simpa using hbc)
              simp [ne_of_lt hxz, hxz]

/-- `Object.keys(props).sort()`. -/
def sortedKeysOf (props : Json) : List (List Char) :=
  List.insertionSort KeyLe (jsKeys props)

/-- The `sortedProps` object built by `normalizeComponent`: each sorted
key mapped to `props[key]`.  For every key produced by `Object.keys` the
read succeeds, so the `.null` default is never hit.  (`Object.keys(null)`
throws in JS; `parse` never accepts a component with `null` properties,
so `print` is only applied away from that case.) -/
def normProps (props : Json) : Json :=
  .obj ((sortedKeysOf props).map (fun k => (k, (jsGet props k).getD .null)))

/-- `normalizeComponent` (parser.js). -/
def normalizeComponent (component : Json) : Json :=
  match getComponentType component with
  | none => component
  | some t => .obj [(t, normProps ((jsGet component t).getD .null))]

/-- `structure.surfaceUpdate.surfaceId`. -/
def surfaceIdOf (d : Json) : Option Json :=
  match jsGet d (cl "surfaceUpdate") with
  | some su => jsGet su (cl "surfaceId")
  | none => none

/-- One entry of the `components.map` in `print`. -/
def normEntry (entry : Json) : Json :=
  .obj [(cl "id", (jsGet entry (cl "id")).getD .null),
        (cl "component", normalizeComponent ((jsGet entry (cl "component")).getD .null))]

/-- `print` (parser.js): the canonical structure serialized by
`JSON.stringify(·, null, 2)`.  Since stringification of finite decoded
trees is injective and inverted by `JSON.parse`, string-level equations
about `print` are stated as structural equations about this normal
form. -/
def print (d : Json) : Json :=
  .obj [(cl "surfaceUpdate", .obj [
    (cl "surfaceId", (surfaceIdOf d).getD .null),
    (cl "components", .arr ((componentsOf d).map normEntry))])]

/-! ## Binding resolution (`dataBinding.js`) -/

/-- `^(\w+)\[(\d+)\]$`: split an array-indexing path segment. -/
def parseArraySeg (part : List Char) : Option (List Char × Nat) :=
  let key := part.takeWhile isWordChar
  let rest := part.dropWhile isWordChar
  match key, rest with
  | [], _ => none
  | _, '[' :: rest2 =>
    let ds := rest2.takeWhile Char.isDigit
    match ds, rest2.dropWhile Char.isDigit with
    | [], _ => none
    | _, [']'] => some (key, ds.foldl (fun a c => a * 10 + (c.toNat - '0'.toNat)) 0)
    | _, _ => none
  | _, _ => none

/-- One step of the `resolvePath` walk on a non-null current value:
either `current[key]?.[index]` (array segment) or `current[part]`. -/
def stepPart (cur : Json) (part : List Char) : Option Json :=
  match parseArraySeg part with
  | some (key, idx) =>
    match jsGet cur key with
    | none => none
    | some .null => none
    | some v => jsGet v (natDec idx)
  | none => jsGet cur part

/-- The `for (const part of parts)` loop of `resolvePath`: at the top of
each iteration a `null`/`undefined` current value short-circuits to
`undefined`. -/
def walkParts : List (List Char) → Option Json → Option Json
  | [], cur => cur
  | _ :: _, none => none
  | _ :: _, some .null => none
  | part :: rest, some cur => walkParts rest (stepPart cur part)

/-- `resolvePath` (dataBinding.js). -/
def resolvePath (path : Json) (dataModel : Json) : Option Json :=
  if !truthy path || jsTypeof path ≠ .string || !truthy dataModel then none
  else
    match path with
    | .str s => walkParts (splitOnChar '.' s) (some dataModel)
    | _ => none

/-- `resolveBinding` (dataBinding.js). -/
def resolveBinding (binding : Json) (dataModel : Json) : Option Json :=
  if !truthy binding then none
  else if jsTypeof binding = .object && truthyO (jsGet binding (cl "path")) then
    resolvePath ((jsGet binding (cl "path")).getD .null) dataModel
  else if jsTypeof binding = .object && (jsGet binding (cl "literalString")).isSome then
    jsGet binding (cl "literalString")
  else some binding

/-- `isPathBinding` (dataBinding.js). -/
def isPathBinding (v : Json) : Bool :=
  truthy v && jsTypeof v = .object &&
    (match jsGet v (cl "path") with | some (.str _) => true | _ => false)

/-! ## Render-set computation (`Renderer.jsx`)

The renderer is embedded at the level of the component graph it builds:
which entries are rendered at the top level and which component a Button
renders as its resolved child.  Form-state and data-model prop enrichment
(`currentValue`, `currentData`, resolved text) only rewrites the props
payload of an already-placed node and is carried as the raw props value.
The claims and the spec scope render-set behaviour to validated surfaces,
on which every access below is the non-throwing JS read. -/

/-- A rendered node: component id, kind, raw props, and the resolved
child rendering (Buttons only). -/
inductive RTree where
  | node (id : List Char) (rtype : List Char) (props : Json) (child : Option RTree)

/-- The `{id, type, props}` records stored in `buildComponentMap`. -/
structure CompDef where
  id : List Char
  ctype : Option (List Char)
  props : Option Json

/-- `entry.component`, `getComponentType(entry.component)` and
`entry.component[type]` for one entry. -/
def defOf (entry : Json) : CompDef :=
  let compO := jsGet entry (cl "component")
  let t := match compO with
    | some c => getComponentType c
    | none => none
  { id := idOf entry
    ctype := t
    props :=
      match compO with
      | none => none
      | some c => jsGet c (match t with | some k => k | none => cl "null") }

/-- JS `Map.set` on a string-keyed map: overwrite in place or append. -/
def mapSetCD (m : List (List Char × CompDef)) (k : List Char) (v : CompDef) :
    List (List Char × CompDef) :=
  match m with
  | [] => [(k, v)]
  | (k', v') :: rest => if k' = k then (k, v) :: rest else (k', v') :: mapSetCD rest k v

/-- `buildComponentMap` (Renderer.jsx). -/
def buildComponentMapR (comps : List Json) : List (List Char × CompDef) :=
  comps.foldl (fun m entry => mapSetCD m (idOf entry) (defOf entry)) []

/-- `componentMap.get(value)`: only a string key can hit the map. -/
def mapGetCD (m : List (List Char × CompDef)) : Json → Option CompDef
  | .str s =>
    match m.find? (fun p => p.1 = s) with
    | some p => some p.2
    | none => none
  | _ => none

/-- `renderComponent` (Renderer.jsx), fuel-indexed: the JS function
recurses through Button child references without a cycle guard (a cyclic
reference diverges in JS); `fuel` bounds that recursion and is chosen
larger than the reference depth in every statement below. -/
def renderComponent (cmap : List (List Char × CompDef)) :
    Nat → CompDef → Option RTree
  | 0, _ => none
  | fuel + 1, cd =>
    match cd.ctype with
    | none => none
    | some t =>
      if !isWhitelisted t then none
      else
        let propsJ := cd.props.getD .null
        let child : Option RTree :=
          if t = cl "Button" then
            match jsGet propsJ (cl "child") with
            | some c =>
              if truthy c then
                match mapGetCD cmap c with
                | some cdef => renderComponent cmap fuel cdef
                | none => none
              else none
            | none => none
          else none
        some (.node cd.id t propsJ child)

/-- The `childIds` set built by `VM2Renderer`: every truthy `child`
property of a Button entry. -/
def childIdsOf (comps : List Json) : List Json :=
  comps.foldl (fun acc entry =>
    let cd := defOf entry
    if cd.ctype = some (cl "Button") then
      match jsGet (cd.props.getD .null) (cl "child") with
      | some c => if truthy c then acc ++ [c] else acc
      | none => acc
    else acc) []

/-- `childIds.has(entry.id)` for a string id. -/
def childIdsHas (cids : List Json) (id : List Char) : Bool :=
  cids.any (fun j => match j with | .str s => decide (s = id) | _ => false)

/-- `VM2Renderer` (Renderer.jsx): top-level filter, then per-entry
rendering, then `filter(Boolean)`. -/
def vmRenderer (s : Json) (fuel : Nat) : List RTree :=
  match jsGet s (cl "surfaceUpdate") with
  | none => []
  | some su =>
    match jsGet su (cl "components") with
    | some (.arr comps) =>
      let cmap := buildComponentMapR comps
      let cids := childIdsOf comps
      (comps.filter (fun entry => !childIdsHas cids (idOf entry))).filterMap
        (fun entry => renderComponent cmap fuel (defOf entry))
    | _ => []

/-! ## Tool router (`router.js`) and registry (`registry.js`) -/

/-- One tool parameter declaration (`{name, type, required}`;
`required` is read truthily, absent ≡ `false`). -/
structure ParamDef where
  name : List Char
  ptype : List Char
  required : Bool
deriving DecidableEq

/-- A registered tool.  The handler models the JS handler function:
`Except.error` is a thrown exception (its message). -/
structure ToolT where
  name : List Char
  parameters : List ParamDef
  handler : List (List Char × Json) → Except (List Char) Json

/-- Generic first-match association lookup. -/
def lookupA {α : Type} (k : List Char) : List (List Char × α) → Option α
  | [] => none
  | (k', v) :: rest => if k' = k then some v else lookupA k rest

/-- `value === null` / `value === ''` tests used by the router. -/
def isNullJ : Json → Bool
  | .null => true
  | _ => false

def isEmptyStrJ : Json → Bool
  | .str [] => true
  | _ => false

/-- `coerced[name] = v`: overwrite in place (the key is always already
present when the router assigns). -/
def setKJ (m : List (List Char × Json)) (k : List Char) (v : Json) :
    List (List Char × Json) :=
  match m with
  | [] => [(k, v)]
  | (k', v') :: rest => if k' = k then (k, v) :: rest else (k', v') :: setKJ rest k v

/-- `delete coerced[name]`. -/
def delK (m : List (List Char × Json)) (k : List Char) : List (List Char × Json) :=
  match m with
  | [] => []
  | (k', v') :: rest => if k' = k then rest else (k', v') :: delK rest k

/-- Lower-cased string (`type.toLowerCase()` on the ASCII type names). -/
def lowerStr (s : List Char) : List Char := s.map jsToLower

/-- `Number(value)` on a form string.  Models the integer-literal and
empty/whitespace cases exactly (`Number("") = 0`); any other numeric
syntax (fractions, exponents, hex) is mapped to `none` ≙ `NaN`, in which
case the router leaves the value unchanged — no verified statement
exercises a non-integer numeric string. -/
def jsNumber (s : List Char) : Option Int :=
  let t := jsTrim s
  if t = [] then some 0
  else
    match t with
    | '-' :: ds => if ds ≠ [] && ds.all Char.isDigit then
        some (-(ds.foldl (fun a c => a * 10 + (c.toNat - '0'.toNat)) 0 : Nat)) else none
    | '+' :: ds => if ds ≠ [] && ds.all Char.isDigit then
        some ((ds.foldl (fun a c => a * 10 + (c.toNat - '0'.toNat)) 0 : Nat)) else none
    | ds => if ds.all Char.isDigit then
        some ((ds.foldl (fun a c => a * 10 + (c.toNat - '0'.toNat)) 0 : Nat)) else none

/-- `parseKeyValueString` (router.js): `"k=v,k2=v2"` into an object;
later duplicate keys overwrite. -/
def parseKeyValueString (s : List Char) : List (List Char × Json) :=
  if s = [] then []
  else
    (splitOnChar ',' s).foldl (fun result pair =>
      match splitOnChar '=' pair with
      | [] => result
      | key :: valueParts =>
        if key ≠ [] && valueParts ≠ [] then
          setKJ result (jsTrim key) (.str (jsTrim (List.intercalate ['='] valueParts)))
        else result) []

/-- `value.split(',').map(s => s.trim()).filter(Boolean)` as an array of
strings. -/
def splitCommaClean (s : List Char) : List Json :=
  (((splitOnChar ',' s).map jsTrim).filter (· ≠ [])).map Json.str

/-- `validateType` (router.js). -/
def validateType (value : Json) (expectedType : List Char) : Bool :=
  let t := lowerStr expectedType
  if t = cl "string" then jsTypeof value = .string
  else if t = cl "number" then jsTypeof value = .number
  else if t = cl "boolean" then jsTypeof value = .boolean
  else if t = cl "object" then
    match value with | .obj _ => true | _ => false
  else if t = cl "array" then
    match value with | .arr _ => true | _ => false
  else true

/-- Details payloads of router/registry errors. -/
inductive ADetails where
  /-- `{ actionId }` (INVALID_ACTION_ID carries the raw value,
  TOOL_NOT_FOUND the string) -/
  | actionIdD (aid : Option Json)
  /-- router `VALIDATION_ERROR`: `{ missingRequired, provided }` -/
  | missing (missingRequired : List (List Char)) (provided : List (List Char))
  /-- router `VALIDATION_ERROR`: `{ typeErrors }` as
  `(parameter, expected, received)` triples -/
  | typeIssues (errs : List (List Char × List Char × JsType))
  /-- registry `VALIDATION_ERROR`: `{ parameter, required, provided }` -/
  | missingExec (parameter : List Char) (required : List (List Char))
      (provided : List (List Char))
  /-- `EXECUTION_ERROR`: `{ toolName, error }` -/
  | execution (toolName : List Char) (errorMsg : List Char)

/-- A router/registry error (`{code, message, details}`; messages are
human-readable interpolations and are not modelled). -/
structure AError where
  code : List Char
  details : ADetails

/-- `ActionResult`: the structured result of `route` / `execute`.
`metadata.executionTime` (wall-clock) is not modelled; `toolName` is. -/
structure ActionResult where
  success : Bool
  data : Json
  error : Option AError
  toolName : Option (List Char)

/-- The per-parameter accumulator body of `validateParameters`
(router.js): first component collects `missingRequired`, second collects
`typeErrors`. -/
def vpStep (params : List (List Char × Json))
    (acc : List (List Char) × List (List Char × List Char × JsType)) (pd : ParamDef) :
    List (List Char) × List (List Char × List Char × JsType) :=
  match lookupA pd.name params with
  | none =>
    if pd.required then (acc.1 ++ [pd.name], acc.2) else acc
  | some v =>
    if pd.required && (isNullJ v || isEmptyStrJ v) then (acc.1 ++ [pd.name], acc.2)
    else if isNullJ v then acc
    else if !validateType v pd.ptype then
      (acc.1, acc.2 ++ [(pd.name, pd.ptype, jsTypeof v)])
    else acc

/-- `validateParameters` (router.js): `none` means valid. -/
def validateParameters (tool : ToolT) (params : List (List Char × Json)) :
    Option ADetails :=
  let step := tool.parameters.foldl (vpStep params) ([], [])
  if step.1 ≠ [] then some (.missing step.1 (params.map Prod.fst))
  else if step.2 ≠ [] then some (.typeIssues step.2)
  else none

/-- The per-parameter body of `coerceParameters` (router.js), updating
the `coerced` map. -/
def coerceOne (jparse : List Char → Option Json) (params : List (List Char × Json))
    (coerced : List (List Char × Json)) (pd : ParamDef) : List (List Char × Json) :=
  match lookupA pd.name params with
  | none => coerced
  | some .null => coerced
  | some v =>
    if isEmptyStrJ v && !pd.required then delK coerced pd.name
    else
      match v with
      | .str s =>
        let t := lowerStr pd.ptype
        if t = cl "number" then
          match jsNumber s with
          | some n => setKJ coerced pd.name (.num n)
          | none => coerced
        else if t = cl "boolean" then
          setKJ coerced pd.name (.bool (s = cl "true" || s = cl "1"))
        else if t = cl "object" then
          if (jsTrim s).take 1 = ['{'] then
            match jparse s with
            | some j => setKJ coerced pd.name j
            | none => setKJ coerced pd.name (.obj (parseKeyValueString s))
          else if '=' ∈ s then setKJ coerced pd.name (.obj (parseKeyValueString s))
          else if jsTrim s = [] then setKJ coerced pd.name (.obj [])
          else coerced
        else if t = cl "array" then
          if (jsTrim s).take 1 = ['['] then
            match jparse s with
            | some j => setKJ coerced pd.name j
            | none => setKJ coerced pd.name (.arr (splitCommaClean s))
          else setKJ coerced pd.name (.arr (splitCommaClean s))
        else coerced
      | _ => coerced

/-- `coerceParameters` (router.js): fold the per-parameter coercion over
the tool's parameter declarations, starting from a copy of the form
data. -/
def coerceParameters (jparse : List Char → Option Json) (tool : ToolT)
    (params : List (List Char × Json)) : List (List Char × Json) :=
  tool.parameters.foldl (coerceOne jparse params) params

/-- `ToolRegistry.execute` (registry.js), additionally reporting the
parameters the handler was invoked with (`none` = handler not invoked). -/
def registryExecute (reg : List (List Char × ToolT)) (actionId : List Char)
    (params : List (List Char × Json)) :
    ActionResult × Option (List (List Char × Json)) :=
  match lookupA actionId reg with
  | none =>
    (⟨false, .null, some ⟨cl "TOOL_NOT_FOUND", .actionIdD (some (.str actionId))⟩, none⟩, none)
  | some tool =>
    let missing := (tool.parameters.filter
      (fun pd => pd.required &&
        (match lookupA pd.name params with
         | none => true
         | some v => isNullJ v))).map
      (fun pd => pd.name)
    match missing with
    | m :: _ =>
      (⟨false, .null,
        some ⟨cl "VALIDATION_ERROR", .missingExec m missing (params.map Prod.fst)⟩,
        some tool.name⟩, none)
    | [] =>
      match tool.handler params with
      | .ok r => (⟨true, r, none, some tool.name⟩, some params)
      | .error msg =>
        (⟨false, .null, some ⟨cl "EXECUTION_ERROR", .execution tool.name msg⟩,
          some tool.name⟩, some params)

/-- `ActionRouter.route` (router.js), additionally reporting the
parameters the handler was invoked with (`none` = handler not invoked). -/
def route (jparse : List Char → Option Json) (reg : List (List Char × ToolT))
    (actionId : Json) (formData : List (List Char × Json)) :
    ActionResult × Option (List (List Char × Json)) :=
  if !truthy actionId || jsTypeof actionId ≠ .string then
    (⟨false, .null, some ⟨cl "INVALID_ACTION_ID", .actionIdD (some actionId)⟩, none⟩, none)
  else
    match actionId with
    | .str aid =>
      match lookupA aid reg with
      | none =>
        (⟨false, .null, some ⟨cl "TOOL_NOT_FOUND", .actionIdD (some (.str aid))⟩, none⟩, none)
      | some tool =>
        let coerced := coerceParameters jparse tool formData
        match validateParameters tool coerced with
        | some d =>
          (⟨false, .null, some ⟨cl "VALIDATION_ERROR", d⟩, none⟩, none)
        | none =>
          let r := registryExecute reg aid coerced
          (⟨r.1.success, r.1.data, r.1.error, r.1.toolName⟩, r.2)
    | _ => (⟨false, .null, some ⟨cl "INVALID_ACTION_ID", .actionIdD (some actionId)⟩, none⟩, none)

/-! ## ReAct agent (`ReActAgent`)

The agent's collaborators — the injected action router and the LLM
client behind each prompt phase — are modelled as explicit stubs
(`AgentStubs`), exactly the injection points of the constructor.  Each
`generate…UI` phase feeds the LLM output through the validator `parse`;
a validation failure there throws (`AgentResp.thrown`), which is fatal
for the call.  Wall-clock timestamps in history entries are not
modelled. -/

/-- `NON_RETRYABLE_CODES`. -/
def NON_RETRYABLE_CODES : List (List Char) :=
  [cl "UNAUTHORIZED", cl "FORBIDDEN", cl "NOT_FOUND"]

/-- An agent-level tool error `{code, message}`. -/
structure ToolErrA where
  code : List Char
  message : List Char
deriving DecidableEq

/-- The `ToolResult` observed by the agent from its injected router. -/
structure AToolResult where
  success : Bool
  data : Json
  error : Option ToolErrA

/-- The result of the OBSERVE phase. -/
structure Observation where
  success : Bool
  data : Json
  error : Option ToolErrA
  reason : Option (List Char)

/-- `observe` (agent): derive the observation from the tool result. -/
def observe (r : AToolResult) : Observation :=
  { success := r.success
    data := r.data
    error := r.error
    reason := if r.success then none
      else some (match r.error with
        | some e => e.message
        | none => cl "Tool execution failed") }

/-- `isRetryable` (agent). -/
def isRetryable (obs : Observation) : Bool :=
  match obs.error with
  | some e => !(e.code ∈ NON_RETRYABLE_CODES)
  | none => true

/-- `DecisionType` outcomes of the DECIDE phase. -/
inductive DecisionT where
  | complete
  | cont
  | retry (adjustments : Json)
  | error (e : ToolErrA)

/-- `decide` (agent): the decision plus the number of calls made to the
adjustment-inference LLM phase (`inferAdjustments`) while deciding. -/
def decideF (adjustO : Observation → Json) (obs : Observation) : DecisionT × Nat :=
  if obs.success then (.complete, 0)
  else if isRetryable obs then (.retry (adjustO obs), 1)
  else
    (.error (match obs.error with
      | some e => e
      | none => ⟨cl "UNKNOWN", match obs.reason with | some r => r | none => []⟩), 0)

/-- `context.retryInfo`. -/
structure RetryInfo where
  previousObservation : Observation
  adjustments : Json
  attemptNumber : Nat

/-- One appended `conversationHistory` record (`updateContext`);
the `timestamp` field is not modelled. -/
inductive HistEntry where
  | turnRec (query : List Char)
  | completedRec (result : AToolResult)
  | erroredRec (error : Option ToolErrA)
  | nextStepRec (result : AToolResult)

/-- The session context fields read or written by `processAction`. -/
structure AgentCtx where
  conversationHistory : List HistEntry
  retryInfo : Option RetryInfo
  formData : List (List Char × Json)

/-- `updateContext` (agent): append one history record. -/
def updateContext (ctx : AgentCtx) (e : HistEntry) : AgentCtx :=
  { ctx with conversationHistory := ctx.conversationHistory ++ [e] }

/-- `updateContextForRetry` (agent). -/
def updateContextForRetry (ctx : AgentCtx) (obs : Observation) (adj : Json) :
    AgentCtx :=
  let n : Nat := match ctx.retryInfo with
    | some r => r.attemptNumber
    | none => 0
  { ctx with retryInfo := some (RetryInfo.mk obs adj (n + 1)) }

/-- The injected collaborators of `ReActAgent` for `processAction`:
the action router and the LLM outputs of each prompt phase. -/
structure AgentStubs where
  /-- `router.route(actionId, formData)` -/
  routeO : List Char → List (List Char × Json) → AToolResult
  /-- `inferAdjustments`: the `response.adjustments || {}` of the
  `inferring_adjustments` LLM call -/
  adjustO : Observation → Json
  /-- LLM output of the `generating_result_ui` phase -/
  genResultO : AToolResult → AgentCtx → Json
  /-- LLM output of the `generating_error_ui` phase -/
  genErrorO : Option ToolErrA → AgentCtx → Json
  /-- LLM output of the `generating_next_step_ui` phase -/
  genNextO : AToolResult → AgentCtx → Json
  /-- `config.maxRetries || 3` -/
  maxRetries : Nat

/-- Response types of an `AgentResponse`. -/
inductive RespType where
  | ui | result | error
deriving DecidableEq

/-- An agent response, or a thrown error (validator rejection of LLM
output, which is fatal and not retried). -/
inductive AgentResp where
  | resp (rtype : RespType) (ui : Json) (ctx : AgentCtx)
  | thrown

/-- `generateResultUI` (agent). -/
def generateResultUI (A : AgentStubs) (tr : AToolResult) (ctx : AgentCtx) : AgentResp :=
  match parse (A.genResultO tr ctx) with
  | .ok u => .resp .result u (updateContext ctx (.completedRec tr))
  | _ => .thrown

/-- `generateErrorUI` (agent). -/
def generateErrorUI (A : AgentStubs) (e : Option ToolErrA) (ctx : AgentCtx) : AgentResp :=
  match parse (A.genErrorO e ctx) with
  | .ok u => .resp .error u (updateContext ctx (.erroredRec e))
  | _ => .thrown

/-- `generateNextStepUI` (agent). -/
def generateNextStepUI (A : AgentStubs) (tr : AToolResult) (ctx : AgentCtx) : AgentResp :=
  match parse (A.genNextO tr ctx) with
  | .ok u => .resp .ui u (updateContext ctx (.nextStepRec tr))
  | _ => .thrown

/-- The `while (retryCount < this.maxRetries)` loop of `processAction`,
with `remaining = maxRetries - retryCount`; returns the response together
with the number of tool invocations and of adjustment-inference LLM
calls. -/
def processLoop (A : AgentStubs) (actionId : List Char)
    (formData : List (List Char × Json)) :
    AgentCtx → Nat → Nat → Nat → AgentResp × Nat × Nat
  | ctx, 0, tools, adjusts =>
    (generateErrorUI A
      (some ⟨cl "MAX_RETRIES", cl "Maximum retry attempts exceeded"⟩) ctx,
     tools, adjusts)
  | ctx, rem + 1, tools, adjusts =>
    let tr := A.routeO actionId formData
    let obs := observe tr
    match decideF A.adjustO obs with
    | (.complete, n) => (generateResultUI A tr ctx, tools + 1, adjusts + n)
    | (.cont, n) => (generateNextStepUI A tr ctx, tools + 1, adjusts + n)
    | (.retry adj, n) =>
      processLoop A actionId formData
        (updateContextForRetry ctx obs adj) rem (tools + 1) (adjusts + n)
    | (.error _, n) =>
      -- `return await this.generateErrorUI(observation.error, …)`
      (generateErrorUI A obs.error ctx, tools + 1, adjusts + n)

/-- `processAction` (agent): `{...context, formData}` then the bounded
retry loop; exhausting `maxRetries` generates the `MAX_RETRIES` error
surface. -/
def processAction (A : AgentStubs) (actionId : List Char)
    (formData : List (List Char × Json)) (ctx : AgentCtx) :
    AgentResp × Nat × Nat :=
  processLoop A actionId formData ({ ctx with formData := formData }) A.maxRetries 0 0

/-! ## Shape of a security error -/

/-- What every error produced by the security scan looks like: code
`SECURITY_VIOLATION`, details carrying a path and a snippet of at most
100 characters. -/
def SecShape (e : PErr) : Prop :=
  e.code = .SECURITY_VIOLATION ∧
    ∃ c q, e.details = .security c q ∧ c.length ≤ 100

/-! ## Concrete instances used in witnesses and counterexamples -/

/-- Build one component entry `{id, component: {kind: props}}`. -/
def mkEntry (id kind : String) (props : Json) : Json :=
  .obj [(cl "id", .str (cl id)), (cl "component", .obj [(cl kind, props)])]

/-- Build a surface `{surfaceUpdate: {surfaceId, components}}`. -/
def mkSurface (sid : String) (comps : List Json) : Json :=
  .obj [(cl "surfaceUpdate", .obj [
    (cl "surfaceId", .str (cl sid)),
    (cl "components", .arr comps)])]

/-- A surface whose Text carries a `<script>` payload. -/
def surfDanger1 : Json :=
  mkSurface "s1" [mkEntry "a" "Text"
    (.obj [(cl "text", .obj [(cl "literalString", .str (cl "<script>alert(1)</script>"))])])]

/-- A Button whose `child` id appears strictly later in the list. -/
def surfForward : Json :=
  mkSurface "s1"
    [mkEntry "b" "Button" (.obj [(cl "action", .obj [(cl "name", .str (cl "go"))]),
       (cl "child", .str (cl "t"))]),
     mkEntry "t" "Text" (.obj [(cl "text", .obj [(cl "literalString", .str (cl "hi"))])])]

/-- A Button with `child: ""` (no component has the empty id). -/
def surfChildEmpty : Json :=
  mkSurface "s1"
    [mkEntry "t" "Text" (.obj [(cl "text", .obj [(cl "literalString", .str (cl "hi"))])]),
     mkEntry "b" "Button" (.obj [(cl "action", .obj [(cl "name", .str (cl "go"))]),
       (cl "child", .str [])])]

/-- A Button with a dangling `child: "x"`. -/
def surfDangling : Json :=
  mkSurface "s1"
    [mkEntry "b" "Button" (.obj [(cl "action", .obj [(cl "name", .str (cl "go"))]),
       (cl "child", .str (cl "x"))])]

/-- An entry with the non-whitelisted kind `Bogus` (the spec scenario). -/
def surfBogusKind : Json :=
  mkSurface "s1" [mkEntry "a" "Bogus" (.obj [])]

/-- A surface exercising the serializer: unsorted keys, an extra
top-level key, string- and number-valued props. -/
def surfWeird : Json :=
  .obj [(cl "extra", .str (cl "dropped by print")),
    (cl "surfaceUpdate", .obj [
    (cl "surfaceId", .str (cl "s1")),
    (cl "components", .arr [
      mkEntry "b" "Button" (.obj [(cl "child", .str (cl "t")),
        (cl "action", .obj [(cl "name", .str (cl "go"))])]),
      mkEntry "t" "Text" (.str (cl "weirdprops")),
      mkEntry "n" "Alert" (.num 5)])])]

/-- A small valid surface used as stubbed LLM output. -/
def uiDone : Json :=
  mkSurface "s1" [mkEntry "a" "Text"
    (.obj [(cl "text", .obj [(cl "literalString", .str (cl "done"))])])]

/-- A tool result that always fails with a retryable `TIMEOUT`. -/
def timeoutResult : AToolResult :=
  ⟨false, .null, some ⟨cl "TIMEOUT", cl "timed out"⟩⟩

/-- A tool result that fails with the non-retryable `FORBIDDEN`. -/
def forbiddenResult : AToolResult :=
  ⟨false, .null, some ⟨cl "FORBIDDEN", cl "not allowed"⟩⟩

/-- Agent stubs: router always times out, every LLM phase emits
`uiDone`, `maxRetries = 3`. -/
def stubTimeout : AgentStubs :=
  { routeO := fun _ _ => timeoutResult
    adjustO := fun _ => .obj []
    genResultO := fun _ _ => uiDone
    genErrorO := fun _ _ => uiDone
    genNextO := fun _ _ => uiDone
    maxRetries := 3 }

/-- Agent stubs: router fails `FORBIDDEN` on every call. -/
def stubForbidden : AgentStubs :=
  { stubTimeout with routeO := fun _ _ => forbiddenResult }

/-- An empty session context. -/
def ctx0 : AgentCtx := ⟨[], none, []⟩

/-- A `JSON.parse` stub for router calls that never reach the decoder. -/
def jparseNone : List Char → Option Json := fun _ => none

/-- A tool with one required `number` parameter. -/
def toolNumReq : ToolT :=
  { name := cl "createThing", parameters := [⟨cl "n", cl "number", true⟩],
    handler := fun _ => .ok (.str (cl "made")) }

def regNumReq : List (List Char × ToolT) := [(cl "create_thing", toolNumReq)]

/-- A tool with one required `string` parameter. -/
def toolStrReq : ToolT :=
  { name := cl "nameThing", parameters := [⟨cl "s", cl "string", true⟩],
    handler := fun _ => .ok (.str (cl "named")) }

def regStrReq : List (List Char × ToolT) := [(cl "name_thing", toolStrReq)]

/-- A tool with one parameter of each coercible type. -/
def toolMix : ToolT :=
  { name := cl "mix", parameters :=
      [⟨cl "n", cl "number", false⟩, ⟨cl "b", cl "boolean", false⟩,
       ⟨cl "b2", cl "boolean", false⟩, ⟨cl "o", cl "object", false⟩,
       ⟨cl "a", cl "array", false⟩, ⟨cl "opt", cl "string", false⟩],
    handler := fun _ => .ok .null }

/-- Two Buttons referencing the same Text child. -/
def surfTwoRefs : Json :=
  mkSurface "s"
    [mkEntry "b1" "Button" (.obj [(cl "action", .obj [(cl "name", .str (cl "a1"))]),
       (cl "child", .str (cl "t"))]),
     mkEntry "b2" "Button" (.obj [(cl "action", .obj [(cl "name", .str (cl "a2"))]),
       (cl "child", .str (cl "t"))]),
     mkEntry "t" "Text" (.obj [(cl "text", .obj [(cl "literalString", .str (cl "hi"))])])]

/-- A Button whose `child` is its own id. -/
def surfSelfRef : Json :=
  mkSurface "s"
    [mkEntry "bb" "Button" (.obj [(cl "action", .obj [(cl "name", .str (cl "a"))]),
       (cl "child", .str (cl "bb"))])]

/-- The id at the root of a rendered node. -/
def rootId : RTree → List Char
  | .node id _ _ _ => id

/-- An entry whose kind resolves and is whitelisted (every entry of a
validated surface). -/
def entryWhitelisted (e : Json) : Bool :=
  match (defOf e).ctype with
  | some t => isWhitelisted t
  | none => false

/-- The `MAX_RETRIES` error object built when the loop exhausts its
attempts. -/
def maxRetriesErr : ToolErrA :=
  ⟨cl "MAX_RETRIES", cl "Maximum retry attempts exceeded"⟩

/-- Form data exercising every coercion branch of `coerceParameters`
against `toolMix`. -/
def mixParams : List (List Char × Json) :=
  [(cl "n", .str (cl "42")), (cl "b", .str (cl "true")), (cl "b2", .str (cl "1")),
   (cl "o", .str (cl "Environment=Production, Region=us-east")),
   (cl "a", .str (cl "x, y, z")), (cl "opt", .str [])]

/-- A tool with one required parameter of each coercible type. -/
def toolAllReq : ToolT :=
  { name := cl "all", parameters :=
      [⟨cl "n", cl "number", true⟩, ⟨cl "b", cl "boolean", true⟩,
       ⟨cl "o", cl "object", true⟩, ⟨cl "a", cl "array", true⟩],
    handler := fun _ => .ok .null }

/-- Every required parameter of `toolAllReq` submitted as `""`. -/
def emptyAll : List (List Char × Json) :=
  [(cl "n", .str []), (cl "b", .str []), (cl "o", .str []), (cl "a", .str [])]

/-! # Lemmas and claim theorems -/

theorem litThen_true_append (pat rest : List Char) :
    litThen pat (fun _ => true) (pat ++ rest) = true := by
  induction pat with
  | nil => simp [litThen]
  | cons p ps ih => simp [litThen, ih]

theorem matchAnywhere_of_suffix (f : List Char → Bool) (xs cs : List Char)
    (prev : Bool) (h : f cs = true) :
    matchAnywhere (fun _ => f) prev (xs ++ cs) = true := by
  induction xs generalizing prev with
  | nil =>
    cases cs with
    | nil => simp [matchAnywhere, h]
    | cons c cs' => simp [matchAnywhere, h]
  | cons x xs ih =>
    simp only [List.cons_append, matchAnywhere, Bool.or_eq_true]
    exact Or.inr (ih _)

theorem validateSUS_code (d : Json) (e : PErr)
    (h : validateSurfaceUpdateStructure d = some e) : e.code = .SCHEMA_INVALID := by
  unfold validateSurfaceUpdateStructure at h
  repeat' split at h
  all_goals (cases h; try rfl)

theorem checkJson_str (cs : List Char) (p : List Char) :
    checkJson (.str cs) p =
      if isDangerousStr cs then
        some ⟨.SECURITY_VIOLATION, .security (cs.take 100) p⟩
      else none := by
  rfl

theorem checkArrJ_code (l : List Json)
    (ih : ∀ x ∈ l, ∀ p e, checkJson x p = some e → SecShape e) :
    ∀ p i e, checkArrJ l p i = some e → SecShape e := by
  induction l with
  | nil => intro p i e h; cases h
  | cons x xs ihl =>
    intro p i e h
    simp only [checkArrJ] at h
    cases hcx : checkJson x (idxPath p i) with
    | some e' =>
      rw [hcx] at h; cases h
      exact ih x (List.mem_cons_self x xs) _ _ hcx
    | none =>
      rw [hcx] at h
      exact ihl (fun y hy => ih y (List.mem_cons_of_mem _ hy)) _ _ _ h

theorem checkObjJ_code (l : List (List Char × Json))
    (ih : ∀ kv ∈ l, ∀ p e, checkJson kv.2 p = some e → SecShape e) :
    ∀ p e, checkObjJ l p = some e → SecShape e := by
  induction l with
  | nil => intro p e h; cases h
  | cons kv rest ihl =>
    intro p e h
    obtain ⟨k, v⟩ := kv
    simp only [checkObjJ] at h
    cases hcv : checkJson v (dotPath p k) with
    | some e' =>
      rw [hcv] at h; cases h
      exact ih (k, v) (List.mem_cons_self (k, v) rest) _ _ hcv
    | none =>
      rw [hcv] at h
      exact ihl (fun y hy => ih y (List.mem_cons_of_mem _ hy)) _ _ h

theorem checkJson_code : ∀ (d : Json) (p : List Char) (e : PErr),
    checkJson d p = some e → SecShape e := by
  intro d
  induction d using Json.indMem with
  | hnull => intro p e h; cases h
  | hbool b => intro p e h; cases h
  | hnum n => intro p e h; cases h
  | hstr s =>
    intro p e h
    rw [checkJson_str] at h
    split at h
    · cases h
      exact ⟨rfl, _, _, rfl, List.length_take_le 100 s⟩
    · cases h
  | harr l ih => exact fun p e h => checkArrJ_code l ih p 0 e h
  | hobj l ih => exact fun p e h => checkObjJ_code l ih p e h

theorem checkArrJ_isSome (l : List Json)
    (ih : ∀ x ∈ l, ∀ p, (checkJson x p).isSome = true ↔ HasDanger x) :
    ∀ p i, (checkArrJ l p i).isSome = true ↔ ∃ x ∈ l, HasDanger x := by
  induction l with
  | nil => intro p i; simp [checkArrJ]
  | cons x xs ihl =>
    intro p i
    simp only [checkArrJ]
    cases hcx : checkJson x (idxPath p i) with
    | some e' =>
      simp only [Option.isSome_some, true_iff]
      exact ⟨x, List.mem_cons_self x xs,
        (ih x (List.mem_cons_self x xs) (idxPath p i)).mp (by rw [hcx]; rfl)⟩
    | none =>
      rw [ihl (fun y hy => ih y (List.mem_cons_of_mem _ hy)) p (i + 1)]
      constructor
      · rintro ⟨y, hy, hd⟩; exact ⟨y, List.mem_cons_of_mem _ hy, hd⟩
      · rintro ⟨y, hy, hd⟩
        rcases List.mem_cons.mp hy with rfl | hy'
        · exfalso
          have hx := (ih y (List.mem_cons_self y xs) (idxPath p i)).mpr hd
          rw [hcx] at hx; cases hx
        · exact ⟨y, hy', hd⟩

theorem checkObjJ_isSome (l : List (List Char × Json))
    (ih : ∀ kv ∈ l, ∀ p, (checkJson kv.2 p).isSome = true ↔ HasDanger kv.2) :
    ∀ p, (checkObjJ l p).isSome = true ↔ ∃ kv ∈ l, HasDanger kv.2 := by
  induction l with
  | nil =>
    intro p
    constructor
    · intro h; cases h
    · rintro ⟨kv, hkv, _⟩; cases hkv
  | cons kv rest ihl =>
    intro p
    obtain ⟨k, v⟩ := kv
    simp only [checkObjJ]
    cases hcv : checkJson v (dotPath p k) with
    | some e' =>
      simp only [Option.isSome_some, true_iff]
      refine ⟨(k, v), List.mem_cons_self (k, v) rest, ?_⟩
      exact (ih (k, v) (List.mem_cons_self (k, v) rest) (dotPath p k)).mp
        (by rw [show ((k, v) : List Char × Json).2 = v from rfl, hcv]; rfl)
    | none =>
      rw [ihl (fun y hy => ih y (List.mem_cons_of_mem _ hy)) p]
      constructor
      · rintro ⟨y, hy, hd⟩; exact ⟨y, List.mem_cons_of_mem _ hy, hd⟩
      · rintro ⟨y, hy, hd⟩
        rcases List.mem_cons.mp hy with rfl | hy'
        · exfalso
          have hx : (checkJson v (dotPath p k)).isSome = true :=
            (ih (k, v) (List.mem_cons_self (k, v) rest) (dotPath p k)).mpr hd
          rw [hcv] at hx; cases hx
        · exact ⟨y, hy', hd⟩

theorem checkJson_isSome : ∀ (d : Json) (p : List Char),
    (checkJson d p).isSome = true ↔ HasDanger d := by
  intro d
  induction d using Json.indMem with
  | hnull =>
    intro p
    constructor
    · intro h; cases h
    · intro h; cases h
  | hbool b =>
    intro p
    constructor
    · intro h; cases h
    · intro h; cases h
  | hnum n =>
    intro p
    constructor
    · intro h; cases h
    · intro h; cases h
  | hstr s =>
    intro p
    rw [checkJson_str]
    constructor
    · intro h
      split at h
      · exact HasDanger.str (by assumption)
      · cases h
    · intro h
      cases h with
      | str hd => simp [hd]
  | harr l ih =>
    intro p
    rw [show checkJson (.arr l) p = checkArrJ l p 0 from rfl,
      checkArrJ_isSome l ih p 0]
    constructor
    · rintro ⟨x, hx, hd⟩; exact HasDanger.arrMem hx hd
    · intro h
      cases h with
      | arrMem hx hd => exact ⟨_, hx, hd⟩
  | hobj l ih =>
    intro p
    rw [show checkJson (.obj l) p = checkObjJ l p from rfl,
      checkObjJ_isSome l ih p]
    constructor
    · rintro ⟨kv, hkv, hd⟩; exact HasDanger.objMem hkv hd
    · intro h
      cases h with
      | objMem hkv hd => exact ⟨_, hkv, hd⟩

theorem vce_code (entry : Json) (i : Nat) (e : PErr)
    (h : validateComponentEntry entry i = some e) : e.code = .SCHEMA_INVALID := by
  unfold validateComponentEntry at h
  repeat' split at h
  all_goals (cases h; try rfl)

theorem vct_code (c : Json) (id : List Char) (e : PErr)
    (h : validateComponentType c id = .error e) :
    e.code = .SCHEMA_INVALID ∨ e.code = .UNKNOWN_COMPONENT := by
  unfold validateComponentType at h
  repeat' split at h
  all_goals (cases h)
  · exact Or.inl rfl
  · exact Or.inr rfl

theorem vct_unknown (c : Json) (id : List Char) (e : PErr)
    (h : validateComponentType c id = .error e)
    (hc : e.code = .UNKNOWN_COMPONENT) :
    ∃ t, e.details = .unknownComponent t COMPONENT_WHITELIST ∧
      getComponentType c = some t ∧ isWhitelisted t = false := by
  unfold validateComponentType at h
  split at h
  · cases h; cases hc
  · next t ht =>
    split at h
    · cases h
    · next hw =>
      cases h
      exact ⟨t, rfl, ht, by simpa using hw⟩

theorem componentLoop_code : ∀ (l : List Json) (seen : List (List Char)) (i : Nat)
    (e : PErr), componentLoop l seen i = .error e →
    e.code = .SCHEMA_INVALID ∨ e.code = .UNKNOWN_COMPONENT := by
  intro l
  induction l with
  | nil => intro seen i e h; cases h
  | cons entry rest ih =>
    intro seen i e h
    simp only [componentLoop] at h
    split at h
    · cases h; exact Or.inl (vce_code entry i _ (by assumption))
    · split at h
      · cases h; exact Or.inl rfl
      · split at h
        · cases h; exact vct_code _ _ _ (by assumption)
        · exact ih _ _ _ h

theorem refChildCheck_code (type : Option (List Char)) (propsO : Option Json)
    (entry : Json) (ids : List (List Char)) (e : PErr)
    (h : refChildCheck type propsO entry ids = .err e) :
    e.code = .INVALID_REFERENCE := by
  unfold refChildCheck at h
  repeat' split at h
  all_goals (cases h; try rfl)

theorem refRefCheck_code (propsO : Option Json) (entry : Json)
    (ids : List (List Char)) (e : PErr)
    (h : refRefCheck propsO entry ids = .err e) :
    e.code = .INVALID_REFERENCE := by
  unfold refRefCheck at h
  repeat' split at h
  all_goals (cases h; try rfl)

theorem resolveRefChecks_code (type : Option (List Char)) (propsO : Option Json)
    (entry : Json) (ids : List (List Char)) (e : PErr)
    (h : resolveRefChecks type propsO entry ids = .err e) :
    e.code = .INVALID_REFERENCE := by
  unfold resolveRefChecks at h
  split at h
  · next heq => cases h; exact refChildCheck_code _ _ _ _ _ heq
  · cases h
  · exact refRefCheck_code _ _ _ _ h

theorem resolveRefEntryBody_code (compO : Option Json) (entry : Json)
    (ids : List (List Char)) (e : PErr)
    (h : resolveRefEntryBody compO entry ids = .err e) :
    e.code = .INVALID_REFERENCE := by
  simp only [resolveRefEntryBody] at h
  split at h
  · cases h
  · exact resolveRefChecks_code _ _ _ _ _ h

theorem resolveRefEntry_code (entry : Json) (ids : List (List Char)) (e : PErr)
    (h : resolveRefEntry entry ids = .err e) : e.code = .INVALID_REFERENCE := by
  unfold resolveRefEntry at h
  split at h
  · cases h
  · exact resolveRefEntryBody_code _ _ _ _ h

theorem resolveRefs_code : ∀ (l : List Json) (ids : List (List Char)) (e : PErr),
    resolveRefs l ids = .err e → e.code = .INVALID_REFERENCE := by
  intro l
  induction l with
  | nil => intro ids e h; cases h
  | cons entry rest ih =>
    intro ids e h
    simp only [resolveRefs] at h
    split at h
    · exact ih _ _ h
    · cases h; exact resolveRefEntry_code entry ids _ (by assumption)
    · cases h

/-- C1.  For every decoded input, `parse` fails with code
`SECURITY_VIOLATION` — whose details carry the offending path and a
snippet of at most 100 characters — if and only if the input passes the
structural shape check and some string leaf of the decoded structure
matches one of the fixed dangerous patterns; in particular any string
containing `"<script>"` or `"javascript:"` is dangerous, while
`"script writing tips"` is not (no false positive on the bare substring
`"script"`). -/
theorem C1_security_scan :
    (∀ d : Json,
      (∃ e, parse d = .err e ∧ e.code = .SECURITY_VIOLATION) ↔
        (validateSurfaceUpdateStructure d = none ∧ HasDanger d)) ∧
    (∀ d e, parse d = .err e → e.code = .SECURITY_VIOLATION →
      ∃ c q, e.details = .security c q ∧ c.length ≤ 100) ∧
    (∀ s pre post, s = pre ++ cl "<script>" ++ post → isDangerousStr s = true) ∧
    (∀ s pre post, s = pre ++ cl "javascript:" ++ post → isDangerousStr s = true) ∧
    isDangerousStr (cl "script writing tips") = false := by
  refine ⟨?_, ?_, ?_, ?_, by decide⟩
  · intro d
    constructor
    · rintro ⟨e, hp, hc⟩
      cases hsus : validateSurfaceUpdateStructure d with
      | some e2 =>
        simp only [parse, hsus] at hp
        cases hp
        exact absurd hc (by simp [validateSUS_code d _ hsus])
      | none =>
        cases hcj : checkJson d [] with
        | some e2 =>
          simp only [parse, hsus, hcj] at hp
          cases hp
          exact ⟨rfl, (checkJson_isSome d []).mp (by rw [hcj]; rfl)⟩
        | none =>
          cases hl : componentLoop (componentsOf d) [] 0 with
          | error e2 =>
            simp only [parse, hsus, hcj, hl] at hp
            cases hp
            rcases componentLoop_code _ _ _ _ hl with h | h <;> simp [h] at hc
          | ok ids =>
            cases hr : resolveRefs (componentsOf d) ids with
            | ok =>
              simp only [parse, hsus, hcj, hl, hr] at hp
              cases hp
            | err e2 =>
              simp only [parse, hsus, hcj, hl, hr] at hp
              cases hp
              have hcode := resolveRefs_code _ _ _ hr
              simp [hcode] at hc
            | crash =>
              simp only [parse, hsus, hcj, hl, hr] at hp
              cases hp
    · rintro ⟨hsus, hd⟩
      have hs := (checkJson_isSome d []).mpr hd
      cases hcj : checkJson d [] with
      | none => rw [hcj] at hs; cases hs
      | some e =>
        exact ⟨e, by simp only [parse, hsus, hcj], (checkJson_code d [] e hcj).1⟩
  · intro d e hp hc
    cases hsus : validateSurfaceUpdateStructure d with
    | some e2 =>
      simp only [parse, hsus] at hp
      cases hp
      exact absurd hc (by simp [validateSUS_code d _ hsus])
    | none =>
      cases hcj : checkJson d [] with
      | some e2 =>
        simp only [parse, hsus, hcj] at hp
        cases hp
        exact (checkJson_code d [] _ hcj).2
      | none =>
        cases hl : componentLoop (componentsOf d) [] 0 with
        | error e2 =>
          simp only [parse, hsus, hcj, hl] at hp
          cases hp
          rcases componentLoop_code _ _ _ _ hl with h | h <;> simp [h] at hc
        | ok ids =>
          cases hr : resolveRefs (componentsOf d) ids with
          | ok =>
            simp only [parse, hsus, hcj, hl, hr] at hp
            cases hp
          | err e2 =>
            simp only [parse, hsus, hcj, hl, hr] at hp
            cases hp
            have hcode := resolveRefs_code _ _ _ hr
            simp [hcode] at hc
          | crash =>
            simp only [parse, hsus, hcj, hl, hr] at hp
            cases hp
  · rintro s pre post rfl
    unfold isDangerousStr
    apply List.any_eq_true.mpr
    refine ⟨fun _ => litThen (cl "<script") (fun _ => true), by simp [dangerousMatchers], ?_⟩
    rw [List.map_append, List.map_append,
      show List.map jsToLower (cl "<script>") = cl "<script>" from rfl,
      List.append_assoc,
      show cl "<script>" ++ List.map jsToLower post =
        cl "<script" ++ ('>' :: List.map jsToLower post) from rfl]
    exact matchAnywhere_of_suffix _ _ _ false
      (litThen_true_append (cl "<script") ('>' :: List.map jsToLower post))
  · rintro s pre post rfl
    unfold isDangerousStr
    apply List.any_eq_true.mpr
    refine ⟨fun _ => litThen (cl "javascript:") (fun _ => true), by simp [dangerousMatchers], ?_⟩
    rw [List.map_append, List.map_append,
      show List.map jsToLower (cl "javascript:") = cl "javascript:" from rfl,
      List.append_assoc]
    exact matchAnywhere_of_suffix _ _ _ false
      (litThen_true_append (cl "javascript:") (List.map jsToLower post))

/-- Witness for C1 at concrete inputs. -/
theorem C1_security_scan_witness :
    isDangerousStr (cl "say <script>alert(1)") = true ∧
    isDangerousStr (cl "javascript:void(0)") = true ∧
    (validateSurfaceUpdateStructure surfDanger1 = none ∧ HasDanger surfDanger1) ∧
    (∃ c q, (PErr.mk .SECURITY_VIOLATION
        (.security (cl "<script>alert(1)</script>")
          (cl "surfaceUpdate.components[0].component.Text.text.literalString"))).details
        = .security c q ∧ c.length ≤ 100) := by
  refine ⟨C1_security_scan.2.2.1 _ (cl "say ") (cl "alert(1)") rfl,
    C1_security_scan.2.2.2.1 _ [] (cl "void(0)") rfl,
    (C1_security_scan.1 surfDanger1).mp ⟨_, rfl, rfl⟩,
    C1_security_scan.2.1 surfDanger1 _ rfl rfl⟩

theorem parse_ok_inv (d dv : Json) (h : parse d = .ok dv) :
    dv = d ∧ validateSurfaceUpdateStructure d = none ∧ checkJson d [] = none ∧
    ∃ ids, componentLoop (componentsOf d) [] 0 = .ok ids ∧
      resolveRefs (componentsOf d) ids = .ok := by
  cases hsus : validateSurfaceUpdateStructure d with
  | some e2 => simp only [parse, hsus] at h; cases h
  | none =>
    cases hcj : checkJson d [] with
    | some e2 => simp only [parse, hsus, hcj] at h; cases h
    | none =>
      cases hl : componentLoop (componentsOf d) [] 0 with
      | error e2 => simp only [parse, hsus, hcj, hl] at h; cases h
      | ok ids =>
        cases hr : resolveRefs (componentsOf d) ids with
        | err e2 => simp only [parse, hsus, hcj, hl, hr] at h; cases h
        | crash => simp only [parse, hsus, hcj, hl, hr] at h; cases h
        | ok =>
          simp only [parse, hsus, hcj, hl, hr] at h
          cases h
          exact ⟨rfl, rfl, rfl, ids, rfl, hr⟩

theorem parse_ok_intro (d : Json) (ids : List (List Char))
    (hsus : validateSurfaceUpdateStructure d = none)
    (hcj : checkJson d [] = none)
    (hl : componentLoop (componentsOf d) [] 0 = .ok ids)
    (hr : resolveRefs (componentsOf d) ids = .ok) :
    parse d = .ok d := by
  simp only [parse, hsus, hcj, hl, hr]

theorem vct_ok (c : Json) (id t : List Char)
    (h : validateComponentType c id = .ok t) :
    getComponentType c = some t ∧ isWhitelisted t = true := by
  unfold validateComponentType at h
  split at h
  · cases h
  · next t' ht =>
    split at h
    · next hw => cases h; exact ⟨ht, hw⟩
    · cases h

theorem componentLoop_ok_mem : ∀ (l : List Json) (seen : List (List Char)) (i : Nat)
    (ids : List (List Char)), componentLoop l seen i = .ok ids →
    ∀ entry ∈ l, ∃ t,
      validateComponentType ((jsGet entry (cl "component")).getD .null)
        (idOf entry) = .ok t := by
  intro l
  induction l with
  | nil => intro seen i ids h entry he; cases he
  | cons x rest ih =>
    intro seen i ids h entry he
    simp only [componentLoop] at h
    split at h
    · cases h
    · split at h
      · cases h
      · split at h
        · cases h
        · next t ht =>
          rcases List.mem_cons.mp he with rfl | he'
          · refine ⟨t, ?_⟩
            cases hj : jsGet entry (cl "component") with
            | some c => rw [hj] at ht; simpa using ht
            | none => rw [hj] at ht; simpa using ht
          · exact ih _ _ _ h entry he'

theorem componentLoop_unknown : ∀ (l : List Json) (seen : List (List Char))
    (i : Nat) (e : PErr), componentLoop l seen i = .error e →
    e.code = .UNKNOWN_COMPONENT →
    ∃ t, e.details = .unknownComponent t COMPONENT_WHITELIST ∧
      isWhitelisted t = false := by
  intro l
  induction l with
  | nil => intro seen i e h hc; cases h
  | cons x rest ih =>
    intro seen i e h hc
    simp only [componentLoop] at h
    split at h
    · next hv =>
      cases h
      exact absurd hc (by simp [vce_code _ _ _ hv])
    · split at h
      · cases h; cases hc
      · split at h
        · next hv =>
          cases h
          rcases vct_unknown _ _ _ hv hc with ⟨t, hd, _, hw⟩
          exact ⟨t, hd, hw⟩
        · exact ih _ _ _ h hc

/-- C3.  No accepted surface contains an entry whose kind tag is outside
the 7-entry whitelist; every `UNKNOWN_COMPONENT` failure carries the
allowed-kinds list of exactly the 7 whitelisted tags; and the spec
scenario (`kind "Bogus"`, otherwise well-shaped) fails with exactly that
error. -/
theorem C3_whitelist :
    (∀ d dv, parse d = .ok dv → ∀ entry ∈ componentsOf d, ∀ k,
      getComponentType ((jsGet entry (cl "component")).getD .null) = some k →
      isWhitelisted k = true) ∧
    (∀ d e, parse d = .err e → e.code = .UNKNOWN_COMPONENT →
      ∃ t, e.details = .unknownComponent t COMPONENT_WHITELIST ∧
        isWhitelisted t = false) ∧
    COMPONENT_WHITELIST =
      [cl "TextInput", cl "Select", cl "Checkbox", cl "Text",
       cl "Alert", cl "Table", cl "Button"] ∧
    COMPONENT_WHITELIST.length = 7 ∧
    parse surfBogusKind =
      .err ⟨.UNKNOWN_COMPONENT, .unknownComponent (cl "Bogus") COMPONENT_WHITELIST⟩ := by
  refine ⟨?_, ?_, rfl, rfl, rfl⟩
  · intro d dv h entry he k hk
    rcases parse_ok_inv d dv h with ⟨_, _, _, ids, hl, _⟩
    rcases componentLoop_ok_mem _ _ _ _ hl entry he with ⟨t, ht⟩
    rcases vct_ok _ _ _ ht with ⟨hk', hw⟩
    rw [hk] at hk'
    cases hk'
    exact hw
  · intro d e hp hc
    cases hsus : validateSurfaceUpdateStructure d with
    | some e2 =>
      simp only [parse, hsus] at hp
      cases hp
      exact absurd hc (by simp [validateSUS_code d _ hsus])
    | none =>
      cases hcj : checkJson d [] with
      | some e2 =>
        simp only [parse, hsus, hcj] at hp
        cases hp
        rcases checkJson_code d [] _ hcj with ⟨hce, _⟩
        exact absurd hc (by simp [hce])
      | none =>
        cases hl : componentLoop (componentsOf d) [] 0 with
        | error e2 =>
          simp only [parse, hsus, hcj, hl] at hp
          cases hp
          exact componentLoop_unknown _ _ _ _ hl hc
        | ok ids =>
          cases hr : resolveRefs (componentsOf d) ids with
          | ok =>
            simp only [parse, hsus, hcj, hl, hr] at hp
            cases hp
          | err e2 =>
            simp only [parse, hsus, hcj, hl, hr] at hp
            cases hp
            exact absurd hc (by simp [resolveRefs_code _ _ _ hr])
          | crash =>
            simp only [parse, hsus, hcj, hl, hr] at hp
            cases hp

/-- Witness for C3 at concrete inputs. -/
theorem C3_whitelist_witness :
    (isWhitelisted (cl "Button") = true) ∧
    (∃ t, (PErr.mk .UNKNOWN_COMPONENT
        (.unknownComponent (cl "Bogus") COMPONENT_WHITELIST)).details =
      .unknownComponent t COMPONENT_WHITELIST ∧ isWhitelisted t = false) := by
  constructor
  · refine C3_whitelist.1 surfForward surfForward rfl
      (mkEntry "b" "Button" (.obj [(cl "action", .obj [(cl "name", .str (cl "go"))]),
        (cl "child", .str (cl "t"))])) ?_ (cl "Button") rfl
    rw [show componentsOf surfForward =
      [mkEntry "b" "Button" (.obj [(cl "action", .obj [(cl "name", .str (cl "go"))]),
         (cl "child", .str (cl "t"))]),
       mkEntry "t" "Text" (.obj [(cl "text",
         .obj [(cl "literalString", .str (cl "hi"))])])] from rfl]
    exact List.mem_cons_self _ _
  · exact C3_whitelist.2.1 surfBogusKind _ rfl rfl

theorem componentLoop_ids : ∀ (l : List Json) (seen : List (List Char)) (i : Nat)
    (ids : List (List Char)), componentLoop l seen i = .ok ids →
    ∀ x, x ∈ ids ↔ (x ∈ seen ∨ ∃ e ∈ l, idOf e = x) := by
  intro l
  induction l with
  | nil =>
    intro seen i ids h x
    cases h
    simp
  | cons entry rest ih =>
    intro seen i ids h x
    simp only [componentLoop] at h
    split at h
    · cases h
    · split at h
      · cases h
      · split at h
        · cases h
        · rw [ih _ _ _ h x]
          constructor
          · rintro (hx | hx)
            · rcases List.mem_cons.mp hx with rfl | hx'
              · exact Or.inr ⟨entry, List.mem_cons_self _ _, rfl⟩
              · exact Or.inl hx'
            · rcases hx with ⟨e, he, hee⟩
              exact Or.inr ⟨e, List.mem_cons_of_mem _ he, hee⟩
          · rintro (hx | ⟨e, he, hee⟩)
            · exact Or.inl (List.mem_cons_of_mem _ hx)
            · rcases List.mem_cons.mp he with rfl | he'
              · exact Or.inl (hee ▸ List.mem_cons_self _ _)
              · exact Or.inr ⟨e, he', hee⟩

theorem resolveRefs_ok_iff : ∀ (l : List Json) (ids : List (List Char)),
    resolveRefs l ids = .ok ↔ ∀ e ∈ l, resolveRefEntry e ids = .ok := by
  intro l ids
  induction l with
  | nil => simp [resolveRefs]
  | cons entry rest ih =>
    simp only [resolveRefs]
    cases hre : resolveRefEntry entry ids with
    | ok =>
      rw [ih]
      constructor
      · intro h e he
        rcases List.mem_cons.mp he with rfl | he'
        · exact hre
        · exact h e he'
      · intro h e he
        exact h e (List.mem_cons_of_mem _ he)
    | err e2 =>
      constructor
      · intro h; cases h
      · intro h
        have := h entry (List.mem_cons_self _ _)
        rw [hre] at this; cases this
    | crash =>
      constructor
      · intro h; cases h
      · intro h
        have := h entry (List.mem_cons_self _ _)
        rw [hre] at this; cases this

theorem resolveRefs_err_inv : ∀ (l : List Json) (ids : List (List Char)) (e : PErr),
    resolveRefs l ids = .err e → ∃ entry ∈ l, resolveRefEntry entry ids = .err e := by
  intro l ids e
  induction l with
  | nil => intro h; cases h
  | cons entry rest ih =>
    intro h
    simp only [resolveRefs] at h
    split at h
    · rcases ih h with ⟨x, hx, hxe⟩
      exact ⟨x, List.mem_cons_of_mem _ hx, hxe⟩
    · next heq => cases h; exact ⟨entry, List.mem_cons_self _ _, heq⟩
    · cases h

theorem refChildCheck_err_inv (type : Option (List Char)) (propsO : Option Json)
    (entry : Json) (ids : List (List Char)) (e : PErr)
    (h : refChildCheck type propsO entry ids = .err e) :
    ∃ tgt, e.details = .invalidReference (jsGet entry (cl "id")) tgt ∧
      truthy tgt = true ∧ idsHas ids tgt = false := by
  unfold refChildCheck at h
  split at h
  · split at h
    · cases h
    · cases h
    · split at h
      · split at h
        · split at h
          · cases h
          · next hhas =>
            cases h
            exact ⟨_, rfl, by assumption, by simpa using hhas⟩
        · cases h
      · cases h
  · cases h

theorem refRefCheck_err_inv (propsO : Option Json) (entry : Json)
    (ids : List (List Char)) (e : PErr)
    (h : refRefCheck propsO entry ids = .err e) :
    ∃ tgt, e.details = .invalidReference (jsGet entry (cl "id")) tgt ∧
      truthy tgt = true ∧ idsHas ids tgt = false := by
  unfold refRefCheck at h
  split at h
  · cases h
  · cases h
  · split at h
    · split at h
      · split at h
        · cases h
        · next hmem =>
          cases h
          refine ⟨_, rfl, by simpa [truthy] using (by assumption : ¬_ = ([] : List Char)), ?_⟩
          simpa [idsHas] using hmem
      · cases h
    · cases h

theorem resolveRefEntry_err_inv (entry : Json) (ids : List (List Char)) (e : PErr)
    (h : resolveRefEntry entry ids = .err e) :
    ∃ tgt, e.details = .invalidReference (jsGet entry (cl "id")) tgt ∧
      truthy tgt = true ∧ idsHas ids tgt = false := by
  unfold resolveRefEntry at h
  split at h
  · cases h
  · simp only [resolveRefEntryBody] at h
    split at h
    · cases h
    · unfold resolveRefChecks at h
      split at h
      · next heq => cases h; exact refChildCheck_err_inv _ _ _ _ _ heq
      · cases h
      · exact refRefCheck_err_inv _ _ _ _ h

theorem jsGet_null (k : List Char) : jsGet .null k = none := rfl

theorem ne_null_of_get {v : Json} {k : List Char} {w : Json}
    (h : jsGet v k = some w) : v ≠ .null := by
  intro hv; subst hv; cases h

theorem jsGetExc_of_get (v : Json) (k : List Char) (w : Option Json)
    (hv : v ≠ .null) (h : jsGet v k = w) : jsGetExc v k = .ok w := by
  cases v <;> simp_all [jsGetExc]

theorem getComponentType_ne_null {c : Json} {t : List Char}
    (h : getComponentType c = some t) : c ≠ .null := by
  intro hc; subst hc
  simp [getComponentType, truthy] at h

/-- C2 (amended).  A Button's child reference is accepted exactly when the
child value is falsy (in particular the empty string, skipped by the
truthiness guard) or the referenced id appears somewhere — including
strictly later — in the components list; a Button with a truthy child id
matching no component's id makes `parse` fail with `INVALID_REFERENCE`
carrying the source entry's id and the dangling target. -/
theorem C2_child_references :
    (∀ d dv, parse d = .ok dv → ∀ entry ∈ componentsOf d, ∀ comp props c,
      jsGet entry (cl "component") = some comp →
      getComponentType comp = some (cl "Button") →
      jsGet comp (cl "Button") = some props →
      jsGet props (cl "child") = some c →
      truthy c = true →
      ∃ e' ∈ componentsOf d, c = .str (idOf e')) ∧
    (∀ d e, parse d = .err e → e.code = .INVALID_REFERENCE →
      ∃ entry ∈ componentsOf d, ∃ tgt,
        e.details = .invalidReference (jsGet entry (cl "id")) tgt ∧
        truthy tgt = true ∧ ∀ e' ∈ componentsOf d, tgt ≠ .str (idOf e')) ∧
    (∀ props entry ids c, jsGet props (cl "child") = some c → truthy c = false →
      refChildCheck (some (cl "Button")) (some props) entry ids = .ok) ∧
    (∀ props entry ids c, jsGet props (cl "child") = some c → truthy c = true →
      idsHas ids c = true →
      refChildCheck (some (cl "Button")) (some props) entry ids = .ok) ∧
    (∀ props entry ids c, jsGet props (cl "child") = some c → truthy c = true →
      idsHas ids c = false →
      refChildCheck (some (cl "Button")) (some props) entry ids =
        .err ⟨.INVALID_REFERENCE, .invalidReference (jsGet entry (cl "id")) c⟩) ∧
    (∀ d ids, validateSurfaceUpdateStructure d = none → checkJson d [] = none →
      componentLoop (componentsOf d) [] 0 = .ok ids →
      (∀ entry ∈ componentsOf d, resolveRefEntry entry ids = .ok) →
      parse d = .ok d) ∧
    parse surfForward = .ok surfForward ∧
    parse surfDangling =
      .err ⟨.INVALID_REFERENCE,
        .invalidReference (some (.str (cl "b"))) (.str (cl "x"))⟩ := by
  refine ⟨?_, ?_, ?_, ?_, ?_, ?_, rfl, rfl⟩
  · intro d dv h entry he comp props c hget hgct hgp hgc htr
    rcases parse_ok_inv d dv h with ⟨_, _, _, ids, hl, hr⟩
    have hok : resolveRefEntry entry ids = .ok := (resolveRefs_ok_iff _ _).mp hr entry he
    have hent : jsGetExc entry (cl "component") = .ok (some comp) :=
      jsGetExc_of_get entry _ _ (ne_null_of_get hget) hget
    rw [resolveRefEntry, hent] at hok
    simp only [resolveRefEntryBody, hgct, propsExc] at hok
    have hcget : jsGetExc comp (cl "Button") = .ok (some props) :=
      jsGetExc_of_get comp _ _ (getComponentType_ne_null hgct) hgp
    rw [hcget] at hok
    simp only [resolveRefChecks] at hok
    have hpn : props ≠ .null := ne_null_of_get hgc
    have hchild : refChildCheck (some (cl "Button")) (some props) entry ids ≠ .err
        ⟨.INVALID_REFERENCE, .invalidReference (jsGet entry (cl "id")) c⟩ := by
      intro hq
      rw [hq] at hok
      cases hok
    cases hhas : idsHas ids c with
    | true =>
      cases c with
      | str s =>
        have hs : s ∈ ids := by simpa [idsHas] using hhas
        rcases (componentLoop_ids _ _ _ _ hl s).mp hs with hfalse | ⟨e', he', hide⟩
        · cases hfalse
        · exact ⟨e', he', by rw [hide]⟩
      | null => simp [idsHas] at hhas
      | bool b => simp [idsHas] at hhas
      | num n => simp [idsHas] at hhas
      | arr l => simp [idsHas] at hhas
      | obj l => simp [idsHas] at hhas
    | false =>
      exfalso
      apply hchild
      unfold refChildCheck
      cases props with
      | null => exact absurd rfl hpn
      | bool b => simp [hgc] at *; simp [hgc, htr, hhas]
      | num n => simp [hgc, htr, hhas]
      | str s => simp [hgc, htr, hhas]
      | arr l => simp [hgc, htr, hhas]
      | obj l => simp [hgc, htr, hhas]
  · intro d e hp hc
    cases hsus : validateSurfaceUpdateStructure d with
    | some e2 =>
      simp only [parse, hsus] at hp
      cases hp
      exact absurd hc (by simp [validateSUS_code d _ hsus])
    | none =>
      cases hcj : checkJson d [] with
      | some e2 =>
        simp only [parse, hsus, hcj] at hp
        cases hp
        rcases checkJson_code d [] _ hcj with ⟨hce, _⟩
        exact absurd hc (by simp [hce])
      | none =>
        cases hl : componentLoop (componentsOf d) [] 0 with
        | error e2 =>
          simp only [parse, hsus, hcj, hl] at hp
          cases hp
          rcases componentLoop_code _ _ _ _ hl with h | h <;> simp [h] at hc
        | ok ids =>
          cases hr : resolveRefs (componentsOf d) ids with
          | ok =>
            simp only [parse, hsus, hcj, hl, hr] at hp
            cases hp
          | crash =>
            simp only [parse, hsus, hcj, hl, hr] at hp
            cases hp
          | err e2 =>
            simp only [parse, hsus, hcj, hl, hr] at hp
            cases hp
            rcases resolveRefs_err_inv _ _ _ hr with ⟨entry, he, hee⟩
            rcases resolveRefEntry_err_inv _ _ _ hee with ⟨tgt, hd, htr, hhas⟩
            refine ⟨entry, he, tgt, hd, htr, ?_⟩
            intro e' he' htgt
            subst htgt
            have : idOf e' ∈ ids :=
              (componentLoop_ids _ _ _ _ hl (idOf e')).mpr
                (Or.inr ⟨e', he', rfl⟩)
            simp [idsHas, this] at hhas
  · intro props entry ids c hgc htr
    unfold refChildCheck
    cases props with
    | null => cases hgc
    | bool b => simp [hgc, htr]
    | num n => simp [hgc, htr]
    | str s => simp [hgc, htr]
    | arr l => simp [hgc, htr]
    | obj l => simp [hgc, htr]
  · intro props entry ids c hgc htr hhas
    unfold refChildCheck
    cases props with
    | null => cases hgc
    | bool b => simp [hgc, htr, hhas]
    | num n => simp [hgc, htr, hhas]
    | str s => simp [hgc, htr, hhas]
    | arr l => simp [hgc, htr, hhas]
    | obj l => simp [hgc, htr, hhas]
  · intro props entry ids c hgc htr hhas
    unfold refChildCheck
    cases props with
    | null => cases hgc
    | bool b => simp [hgc, htr, hhas]
    | num n => simp [hgc, htr, hhas]
    | str s => simp [hgc, htr, hhas]
    | arr l => simp [hgc, htr, hhas]
    | obj l => simp [hgc, htr, hhas]
  · intro d ids hsus hcj hl hall
    exact parse_ok_intro d ids hsus hcj hl ((resolveRefs_ok_iff _ _).mpr hall)

/-- Witness for C2 (amended) at concrete inputs. -/
theorem C2_child_references_witness :
    (∃ e' ∈ componentsOf surfForward, Json.str (cl "t") = .str (idOf e')) ∧
    refChildCheck (some (cl "Button"))
      (some (.obj [(cl "child", .str [])])) (.obj []) [] = .ok := by
  constructor
  · exact C2_child_references.1 surfForward surfForward rfl
      (mkEntry "b" "Button" (.obj [(cl "action", .obj [(cl "name", .str (cl "go"))]),
        (cl "child", .str (cl "t"))]))
      (by
        rw [show componentsOf surfForward =
          [mkEntry "b" "Button" (.obj [(cl "action", .obj [(cl "name", .str (cl "go"))]),
             (cl "child", .str (cl "t"))]),
           mkEntry "t" "Text" (.obj [(cl "text",
             .obj [(cl "literalString", .str (cl "hi"))])])] from rfl]
        exact List.mem_cons_self _ _)
      (.obj [(cl "Button", .obj [(cl "action", .obj [(cl "name", .str (cl "go"))]),
        (cl "child", .str (cl "t"))])])
      (.obj [(cl "action", .obj [(cl "name", .str (cl "go"))]),
        (cl "child", .str (cl "t"))])
      (.str (cl "t")) rfl rfl rfl rfl rfl
  · exact C2_child_references.2.2.1 (.obj [(cl "child", .str [])]) (.obj []) []
      (.str []) rfl rfl

/-- Counterexample for C2 as frozen: a Button with `child: ""` — an id
matching no component (all ids are non-empty) — is accepted by `parse`,
not rejected with `INVALID_REFERENCE`. -/
theorem C2_counterexample :
    parse surfChildEmpty = .ok surfChildEmpty ∧
    jsGet (.obj [(cl "action", .obj [(cl "name", .str (cl "go"))]),
      (cl "child", .str [])]) (cl "child") = some (.str []) ∧
    (∀ e' ∈ componentsOf surfChildEmpty, idOf e' ≠ []) := by
  refine ⟨rfl, rfl, by decide⟩

/-- C8 (amended).  `resolve` returns `undefined` for every falsy binding
value (`null`, `false`, `0`, `""`); a binding object with a truthy `path`
walks the data model (dot segments, `name[index]` array steps, a missing
or exhausted intermediate yielding `undefined`, never an error); a
binding object carrying `literalString` returns that value unchanged;
every other (truthy, non-binding-shaped) value is returned as-is. -/
theorem C8_binding_resolution :
    (∀ b dm, truthy b = false → resolveBinding b dm = none) ∧
    (∀ kvs dm p, jsGet (.obj kvs) (cl "path") = some p → truthy p = true →
      resolveBinding (.obj kvs) dm = resolvePath p dm) ∧
    (∀ kvs dm v, truthyO (jsGet (.obj kvs) (cl "path")) = false →
      jsGet (.obj kvs) (cl "literalString") = some v →
      resolveBinding (.obj kvs) dm = some v) ∧
    (∀ b dm, truthy b = true → jsTypeof b ≠ .object →
      resolveBinding b dm = some b) ∧
    (∀ b dm, truthy b = true → truthyO (jsGet b (cl "path")) = false →
      jsGet b (cl "literalString") = none →
      resolveBinding b dm = some b) ∧
    (∀ s dm, truthy dm = true → s ≠ [] →
      resolvePath (.str s) dm = walkParts (splitOnChar '.' s) (some dm)) ∧
    (∀ part rest, walkParts (part :: rest) none = none) ∧
    (∀ part rest, walkParts (part :: rest) (some .null) = none) ∧
    (∀ cur part key idx v, parseArraySeg part = some (key, idx) →
      jsGet cur key = some v → v ≠ .null →
      stepPart cur part = jsGet v (natDec idx)) := by
  refine ⟨?_, ?_, ?_, ?_, ?_, ?_, fun _ _ => rfl, fun _ _ => rfl, ?_⟩
  · intro b dm hb
    simp [resolveBinding, hb]
  · intro kvs dm p hget htr
    simp only [resolveBinding, hget]
    rw [if_neg (by simp [truthy]), if_pos (by simp [jsTypeof, truthyO, hget, htr])]
    rfl
  · intro kvs dm v hp hl
    simp [resolveBinding, jsTypeof, hp, hl, truthy]
  · intro b dm htr hto
    simp [resolveBinding, htr, hto]
  · intro b dm htr hp hl
    simp [resolveBinding, htr, hp, hl]
  · intro s dm hdm hs
    simp only [resolvePath]
    rw [if_neg (by cases dm <;> simp_all [truthy, jsTypeof, hs])]
  · intro cur part key idx v hseg hget hv
    cases v with
    | null => exact absurd rfl hv
    | bool b => simp [stepPart, hseg, hget]
    | num n => simp [stepPart, hseg, hget]
    | str s => simp [stepPart, hseg, hget]
    | arr l => simp [stepPart, hseg, hget]
    | obj l => simp [stepPart, hseg, hget]

/-- Witness for C8 (amended) at concrete inputs. -/
theorem C8_binding_resolution_witness :
    resolveBinding (.obj [(cl "path", .str (cl "a.items[1]"))])
        (.obj [(cl "a", .obj [(cl "items", .arr [.num 1, .num 2])])]) =
      resolvePath (.str (cl "a.items[1]"))
        (.obj [(cl "a", .obj [(cl "items", .arr [.num 1, .num 2])])]) ∧
    resolveBinding (.obj [(cl "literalString", .str (cl "hi"))]) (.obj []) =
      some (.str (cl "hi")) ∧
    resolveBinding (.str (cl "plain")) (.obj []) = some (.str (cl "plain")) ∧
    resolveBinding (.bool true) (.obj []) = some (.bool true) := by
  refine ⟨C8_binding_resolution.2.1 _ _ _ rfl rfl,
    C8_binding_resolution.2.2.1 _ _ _ rfl rfl,
    C8_binding_resolution.2.2.2.1 _ _ rfl (by decide),
    C8_binding_resolution.2.2.2.1 _ _ rfl (by decide)⟩

/-- Counterexample for C8 as frozen: `false` and `0` are neither
path-binding nor literal-binding shapes, yet `resolve` does not return
them as-is — every falsy input yields `undefined`. -/
theorem C8_counterexample :
    resolveBinding (.bool false) (.obj []) = none ∧
    resolveBinding (.bool false) (.obj []) ≠ some (.bool false) ∧
    resolveBinding (.num 0) (.obj []) = none ∧
    resolveBinding (.str []) (.obj []) = none := by
  refine ⟨rfl, ?_, rfl, rfl⟩
  intro h
  cases h

theorem renderComponent_root (cmap : List (List Char × CompDef)) (fuel : Nat)
    (cd : CompDef) (t : List Char) (h : cd.ctype = some t)
    (hw : isWhitelisted t = true) :
    ∃ child, renderComponent cmap (fuel + 1) cd =
      some (.node cd.id t (cd.props.getD .null) child) := by
  simp only [renderComponent, h, hw, Bool.not_true, Bool.false_eq_true, if_false]
  exact ⟨_, rfl⟩

theorem filterMap_render_ids (cmap : List (List Char × CompDef)) :
    ∀ (l : List Json) (fuel : Nat),
    (∀ e ∈ l, entryWhitelisted e = true) → 1 ≤ fuel →
    (l.filterMap (fun entry => renderComponent cmap fuel (defOf entry))).map rootId
      = l.map idOf := by
  intro l
  induction l with
  | nil => intro fuel _ _; rfl
  | cons e rest ih =>
    intro fuel hall hfuel
    cases fuel with
    | zero => cases hfuel
    | succ f =>
      have he := hall e (List.mem_cons_self _ _)
      unfold entryWhitelisted at he
      cases hct : (defOf e).ctype with
      | none => rw [hct] at he; cases he
      | some t =>
        rw [hct] at he
        rcases renderComponent_root cmap f (defOf e) t hct he with ⟨child, hrc⟩
        simp only [List.filterMap_cons, hrc, List.map_cons]
        rw [ih (f + 1) (fun x hx => hall x (List.mem_cons_of_mem _ hx)) hfuel]
        rfl

/-- C9 (amended).  For a surface of whitelisted entries the rendered
top-level list is exactly the entries whose id is not referenced as a
Button `child` by **any** entry (including itself), in order; and every
top-level Button with a resolvable truthy `child` renders that child
under itself — when several Buttons reference the same id, each referrer
renders its own copy. -/
theorem C9_render_set :
    (∀ s su comps fuel,
      jsGet s (cl "surfaceUpdate") = some su →
      jsGet su (cl "components") = some (.arr comps) →
      (∀ e ∈ comps, entryWhitelisted e = true) →
      1 ≤ fuel →
      (vmRenderer s fuel).map rootId =
        (comps.filter (fun e => !childIdsHas (childIdsOf comps) (idOf e))).map idOf) ∧
    (∀ cmap fuel cd props c cdef,
      cd.ctype = some (cl "Button") → cd.props = some props →
      jsGet props (cl "child") = some c → truthy c = true →
      mapGetCD cmap c = some cdef →
      renderComponent cmap (fuel + 1) cd =
        some (.node cd.id (cl "Button") props
          (renderComponent cmap fuel cdef))) := by
  constructor
  · intro s su comps fuel h1 h2 hall hfuel
    simp only [vmRenderer, h1, h2]
    rw [filterMap_render_ids _ _ fuel
      (fun e he => hall e (List.mem_of_mem_filter he)) hfuel]
  · intro cmap fuel cd props c cdef hct hprops hgc htr hmg
    have hw : isWhitelisted (cl "Button") = true := by decide
    simp only [renderComponent, hct, hw, hprops, Bool.not_true, Bool.false_eq_true,
      if_false, Option.getD_some, hgc, htr, hmg]
    simp

/-- Witness for C9 (amended) at concrete inputs. -/
theorem C9_render_set_witness :
    (vmRenderer surfTwoRefs 3).map rootId = [cl "b1", cl "b2"] ∧
    renderComponent (buildComponentMapR (componentsOf surfTwoRefs)) 3
        (defOf (mkEntry "b1" "Button"
          (.obj [(cl "action", .obj [(cl "name", .str (cl "a1"))]),
            (cl "child", .str (cl "t"))]))) =
      some (.node (cl "b1") (cl "Button")
        (.obj [(cl "action", .obj [(cl "name", .str (cl "a1"))]),
          (cl "child", .str (cl "t"))])
        (renderComponent (buildComponentMapR (componentsOf surfTwoRefs)) 2
          (defOf (mkEntry "t" "Text"
            (.obj [(cl "text", .obj [(cl "literalString", .str (cl "hi"))])]))))) := by
  constructor
  · rw [C9_render_set.1 surfTwoRefs
      (.obj [(cl "surfaceId", .str (cl "s")),
        (cl "components", .arr (componentsOf surfTwoRefs))])
      (componentsOf surfTwoRefs) 3 rfl rfl (by decide) (by decide)]
    rfl
  · exact C9_render_set.2 _ 2 _
      (.obj [(cl "action", .obj [(cl "name", .str (cl "a1"))]),
        (cl "child", .str (cl "t"))])
      (.str (cl "t")) _ rfl rfl rfl rfl rfl

/-- Counterexample for C9 as frozen: with two Buttons referencing the
same Text, the child is rendered under **both** referrers (not only the
first); and a Button whose `child` is its own id is suppressed from the
top level even though no *other* component references it. -/
theorem C9_counterexample :
    vmRenderer surfTwoRefs 3 =
      [.node (cl "b1") (cl "Button")
         (.obj [(cl "action", .obj [(cl "name", .str (cl "a1"))]),
           (cl "child", .str (cl "t"))])
         (some (.node (cl "t") (cl "Text")
           (.obj [(cl "text", .obj [(cl "literalString", .str (cl "hi"))])]) none)),
       .node (cl "b2") (cl "Button")
         (.obj [(cl "action", .obj [(cl "name", .str (cl "a2"))]),
           (cl "child", .str (cl "t"))])
         (some (.node (cl "t") (cl "Text")
           (.obj [(cl "text", .obj [(cl "literalString", .str (cl "hi"))])]) none))] ∧
    parse surfTwoRefs = .ok surfTwoRefs ∧
    vmRenderer surfSelfRef 3 = [] ∧
    parse surfSelfRef = .ok surfSelfRef :=
  ⟨rfl, rfl, rfl, rfl⟩

theorem processLoop_timeout_step (A : AgentStubs) (actionId : List Char)
    (formData : List (List Char × Json)) (ctx : AgentCtx)
    (rem tools adjusts : Nat)
    (hroute : A.routeO actionId formData = timeoutResult) :
    processLoop A actionId formData ctx (rem + 1) tools adjusts =
      processLoop A actionId formData
        (updateContextForRetry ctx (observe timeoutResult)
          (A.adjustO (observe timeoutResult)))
        rem (tools + 1) (adjusts + 1) := by
  have hsucc : (observe timeoutResult).success = false := rfl
  have hretry : isRetryable (observe timeoutResult) = true := by decide
  have hd : decideF A.adjustO (observe timeoutResult) =
      (.retry (A.adjustO (observe timeoutResult)), 1) := by
    simp [decideF, hsucc, hretry]
  simp only [processLoop, hroute, hd]

theorem processLoop_zero_err (A : AgentStubs) (actionId : List Char)
    (formData : List (List Char × Json)) (ctx : AgentCtx)
    (tools adjusts : Nat) (u : Json)
    (hu : parse (A.genErrorO (some maxRetriesErr) ctx) = .ok u) :
    processLoop A actionId formData ctx 0 tools adjusts =
      (.resp .error u (updateContext ctx (.erroredRec (some maxRetriesErr))),
       tools, adjusts) := by
  simp only [processLoop, generateErrorUI]
  rw [show A.genErrorO (some ⟨cl "MAX_RETRIES", cl "Maximum retry attempts exceeded"⟩) ctx
    = A.genErrorO (some maxRetriesErr) ctx from rfl, hu]
  rfl

theorem processLoop_timeout_all (A : AgentStubs) (actionId : List Char)
    (formData : List (List Char × Json))
    (hroute : ∀ a f, A.routeO a f = timeoutResult)
    (hgen : ∀ e c, ∃ w, parse (A.genErrorO e c) = .ok w) :
    ∀ (rem : Nat) (ctx : AgentCtx) (tools adjusts : Nat), ∃ u ctx',
      processLoop A actionId formData ctx rem tools adjusts =
        (.resp .error u ctx', tools + rem, adjusts + rem) ∧
      ctx'.conversationHistory.getLast? =
        some (.erroredRec (some maxRetriesErr)) := by
  intro rem
  induction rem with
  | zero =>
    intro ctx tools adjusts
    obtain ⟨u, hu⟩ := hgen (some maxRetriesErr) ctx
    refine ⟨u, updateContext ctx (.erroredRec (some maxRetriesErr)), ?_, ?_⟩
    · rw [processLoop_zero_err A actionId formData ctx tools adjusts u hu]
      simp
    · show (ctx.conversationHistory ++
        [HistEntry.erroredRec (some maxRetriesErr)]).getLast? = _
      rw [List.getLast?_append_cons]
      rfl
  | succ r ih =>
    intro ctx tools adjusts
    rw [processLoop_timeout_step A actionId formData ctx r tools adjusts
      (hroute _ _)]
    obtain ⟨u, ctx', hp, hl⟩ := ih _ (tools + 1) (adjusts + 1)
    refine ⟨u, ctx', ?_, hl⟩
    rw [hp]
    congr 2 <;> omega

/-- C5.  Against a tool that always fails with the retryable `TIMEOUT`,
`processAction` with `maxRetries = 3` invokes the tool exactly 3 times,
then terminates by generating the error surface for the `MAX_RETRIES`
error and returning a response of type `error`. -/
theorem C5_retry_bound (A : AgentStubs) (actionId : List Char)
    (formData : List (List Char × Json)) (ctx : AgentCtx)
    (hmax : A.maxRetries = 3)
    (hroute : ∀ a f, A.routeO a f = timeoutResult)
    (hgen : ∀ e c, ∃ w, parse (A.genErrorO e c) = .ok w) :
    ∃ u ctx', processAction A actionId formData ctx = (.resp .error u ctx', 3, 3) ∧
      ctx'.conversationHistory.getLast? =
        some (.erroredRec (some maxRetriesErr)) := by
  rw [processAction, hmax]
  obtain ⟨u, ctx', hp, hl⟩ :=
    processLoop_timeout_all A actionId formData hroute hgen 3
      ({ ctx with formData := formData }) 0 0
  exact ⟨u, ctx', by simpa using hp, hl⟩

/-- Witness for C5 with concrete stubs. -/
theorem C5_retry_bound_witness :
    ∃ u ctx', processAction stubTimeout (cl "act") [] ctx0 =
        (.resp .error u ctx', 3, 3) ∧
      ctx'.conversationHistory.getLast? =
        some (.erroredRec (some maxRetriesErr)) :=
  C5_retry_bound stubTimeout (cl "act") [] ctx0 rfl (fun _ _ => rfl)
    (fun _ _ => ⟨uiDone, rfl⟩)

/-- C6.  A tool failure whose code is in {UNAUTHORIZED, FORBIDDEN,
NOT_FOUND} makes `decide` return an `Error` decision with zero calls to
the adjustment-inference phase; a first-call `FORBIDDEN` failure ends
`processAction` on the very first attempt (one tool call, no adjustment
call) with an error response for that error. -/
theorem C6_nonretryable_short_circuit :
    (∀ (adjustO : Observation → Json) (obs : Observation) (e : ToolErrA),
      obs.success = false → obs.error = some e →
      e.code ∈ NON_RETRYABLE_CODES →
      decideF adjustO obs = (.error e, 0)) ∧
    (∀ (A : AgentStubs) (actionId : List Char)
      (formData : List (List Char × Json)) (ctx : AgentCtx) (u : Json),
      1 ≤ A.maxRetries →
      A.routeO actionId formData = forbiddenResult →
      parse (A.genErrorO (some ⟨cl "FORBIDDEN", cl "not allowed"⟩)
        ({ ctx with formData := formData })) = .ok u →
      processAction A actionId formData ctx =
        (.resp .error u
          (updateContext ({ ctx with formData := formData })
            (.erroredRec (some ⟨cl "FORBIDDEN", cl "not allowed"⟩))),
         1, 0)) := by
  constructor
  · intro adjustO obs e hsucc herr hmem
    have hnr : isRetryable obs = false := by
      simp [isRetryable, herr, hmem]
    simp [decideF, hsucc, hnr, herr]
  · intro A actionId formData ctx u hmax hroute hgen
    obtain ⟨m, hm⟩ : ∃ m, A.maxRetries = m + 1 := by
      cases h : A.maxRetries with
      | zero => rw [h] at hmax; cases hmax
      | succ m => exact ⟨m, rfl⟩
    rw [processAction, hm]
    have hsucc : (observe forbiddenResult).success = false := rfl
    have herr : (observe forbiddenResult).error =
        some ⟨cl "FORBIDDEN", cl "not allowed"⟩ := rfl
    have hmem : (⟨cl "FORBIDDEN", cl "not allowed"⟩ : ToolErrA).code ∈
        NON_RETRYABLE_CODES := by decide
    have hd : decideF A.adjustO (observe forbiddenResult) =
        (.error ⟨cl "FORBIDDEN", cl "not allowed"⟩, 0) := by
      have hnr : isRetryable (observe forbiddenResult) = false := by decide
      simp [decideF, hsucc, hnr, herr]
    simp only [processLoop, hroute, hd, generateErrorUI, herr, hgen]

/-- Witness for C6 with concrete stubs. -/
theorem C6_nonretryable_short_circuit_witness :
    decideF (fun _ => .obj []) (observe forbiddenResult) =
      (.error ⟨cl "FORBIDDEN", cl "not allowed"⟩, 0) ∧
    processAction stubForbidden (cl "act") [] ctx0 =
      (.resp .error uiDone
        (updateContext ({ ctx0 with formData := [] })
          (.erroredRec (some ⟨cl "FORBIDDEN", cl "not allowed"⟩))),
       1, 0) :=
  ⟨C6_nonretryable_short_circuit.1 (fun _ => .obj []) (observe forbiddenResult)
      ⟨cl "FORBIDDEN", cl "not allowed"⟩ rfl rfl (by decide),
   C6_nonretryable_short_circuit.2 stubForbidden (cl "act") [] ctx0 uiDone
      (by decide) rfl rfl⟩

theorem lookupA_setKJ_self (m : List (List Char × Json)) (k : List Char) (v : Json) :
    lookupA k (setKJ m k v) = some v := by
  induction m with
  | nil => simp [setKJ, lookupA]
  | cons p rest ih =>
    obtain ⟨k0, v0⟩ := p
    by_cases h : k0 = k
    · subst h; simp [setKJ, lookupA]
    · simp [setKJ, lookupA, h, ih]

theorem lookupA_setKJ_ne (m : List (List Char × Json)) (k k' : List Char) (v : Json)
    (h : k' ≠ k) : lookupA k (setKJ m k' v) = lookupA k m := by
  induction m with
  | nil => simp [setKJ, lookupA, h]
  | cons p rest ih =>
    obtain ⟨k0, v0⟩ := p
    by_cases h0 : k0 = k'
    · subst h0; simp [setKJ, lookupA, h]
    · simp only [setKJ, if_neg h0, lookupA]
      by_cases h1 : k0 = k
      · simp [h1]
      · simp [h1, ih]

theorem lookupA_eq_none (m : List (List Char × Json)) (k : List Char)
    (h : k ∉ m.map Prod.fst) : lookupA k m = none := by
  induction m with
  | nil => rfl
  | cons p rest ih =>
    obtain ⟨k0, v0⟩ := p
    simp only [List.map_cons, List.mem_cons] at h
    push_neg at h
    have hne : ¬(k0 = k) := fun hh => h.1 hh.symm
    simp [lookupA, hne, ih h.2]

theorem lookupA_delK_self (m : List (List Char × Json)) (k : List Char)
    (h : (m.map Prod.fst).Nodup) : lookupA k (delK m k) = none := by
  induction m with
  | nil => rfl
  | cons p rest ih =>
    obtain ⟨k0, v0⟩ := p
    simp only [List.map_cons, List.nodup_cons] at h
    by_cases h0 : k0 = k
    · simp only [delK, if_pos h0]
      exact lookupA_eq_none rest k (h0 ▸ h.1)
    · simp [delK, h0, lookupA, ih h.2]

theorem lookupA_delK_ne (m : List (List Char × Json)) (k k' : List Char)
    (h : k' ≠ k) : lookupA k (delK m k') = lookupA k m := by
  induction m with
  | nil => rfl
  | cons p rest ih =>
    obtain ⟨k0, v0⟩ := p
    by_cases h0 : k0 = k'
    · simp only [delK, if_pos h0, lookupA]
      rw [if_neg (fun hh => h (h0.symm.trans hh))]
    · simp only [delK, if_neg h0, lookupA]
      by_cases h1 : k0 = k
      · simp [h1]
      · simp [h1, ih]

theorem keys_setKJ (m : List (List Char × Json)) (k : List Char) (v : Json) :
    (setKJ m k v).map Prod.fst =
      if k ∈ m.map Prod.fst then m.map Prod.fst else m.map Prod.fst ++ [k] := by
  induction m with
  | nil => simp [setKJ]
  | cons p rest ih =>
    obtain ⟨k0, v0⟩ := p
    by_cases h0 : k0 = k
    · simp only [setKJ, if_pos h0, List.map_cons]
      rw [h0, if_pos (List.mem_cons_self _ _)]
    · have hne : (k = k0) = False := eq_false (fun hh => h0 hh.symm)
      simp only [setKJ, if_neg h0, List.map_cons, ih, List.mem_cons, hne,
        false_or]
      by_cases hk : k ∈ rest.map Prod.fst
      · simp [hk]
      · simp [hk]

theorem nodup_keys_setKJ (m : List (List Char × Json)) (k : List Char) (v : Json)
    (h : (m.map Prod.fst).Nodup) : ((setKJ m k v).map Prod.fst).Nodup := by
  rw [keys_setKJ]
  by_cases hk : k ∈ m.map Prod.fst
  · simpa [hk] using h
  · simp [hk, List.nodup_append, h]

theorem delK_sublist (m : List (List Char × Json)) (k : List Char) :
    List.Sublist (delK m k) m := by
  induction m with
  | nil => simp [delK]
  | cons p rest ih =>
    obtain ⟨k0, v0⟩ := p
    by_cases h0 : k0 = k
    · simp only [delK, if_pos h0]
      exact List.sublist_cons_self _ _
    · simp only [delK, if_neg h0]
      exact ih.cons₂ _

theorem nodup_keys_delK (m : List (List Char × Json)) (k : List Char)
    (h : (m.map Prod.fst).Nodup) : ((delK m k).map Prod.fst).Nodup :=
  h.sublist ((delK_sublist m k).map Prod.fst)

theorem coerceOne_action (jp : List Char → Option Json)
    (params : List (List Char × Json)) (pd : ParamDef) :
    (∀ m, coerceOne jp params m pd = m) ∨
    (∃ w, ∀ m, coerceOne jp params m pd = setKJ m pd.name w) ∨
    (∀ m, coerceOne jp params m pd = delK m pd.name) := by
  cases hv : lookupA pd.name params with
  | none => exact Or.inl (fun m => by simp [coerceOne, hv])
  | some v =>
    cases v with
    | null => exact Or.inl (fun m => by simp [coerceOne, hv])
    | bool b => exact Or.inl (fun m => by simp [coerceOne, hv, isEmptyStrJ])
    | num n => exact Or.inl (fun m => by simp [coerceOne, hv, isEmptyStrJ])
    | arr l => exact Or.inl (fun m => by simp [coerceOne, hv, isEmptyStrJ])
    | obj l => exact Or.inl (fun m => by simp [coerceOne, hv, isEmptyStrJ])
    | str s =>
      by_cases he : (isEmptyStrJ (Json.str s) && !pd.required) = true
      · exact Or.inr (Or.inr (fun m => by
          simp only [coerceOne, hv]
          rw [if_pos he]))
      · by_cases h1 : lowerStr pd.ptype = cl "number"
        · cases hn : jsNumber s with
          | some n =>
            exact Or.inr (Or.inl ⟨.num n, fun m => by
              simp only [coerceOne, hv]
              rw [if_neg he, if_pos h1]
              simp only [hn]⟩)
          | none =>
            exact Or.inl (fun m => by
              simp only [coerceOne, hv]
              rw [if_neg he, if_pos h1]
              simp only [hn])
        · by_cases h2 : lowerStr pd.ptype = cl "boolean"
          · exact Or.inr (Or.inl ⟨.bool (decide (s = cl "true") || decide (s = cl "1")),
              fun m => by
              simp only [coerceOne, hv]
              rw [if_neg he, if_neg h1, if_pos h2]⟩)
          · by_cases h3 : lowerStr pd.ptype = cl "object"
            · by_cases h4 : (jsTrim s).take 1 = ['{']
              · cases hj : jp s with
                | some j =>
                  exact Or.inr (Or.inl ⟨j, fun m => by
                    simp only [coerceOne, hv]
                    rw [if_neg he, if_neg h1, if_neg h2, if_pos h3, if_pos h4]
                    simp only [hj]⟩)
                | none =>
                  exact Or.inr (Or.inl ⟨.obj (parseKeyValueString s), fun m => by
                    simp only [coerceOne, hv]
                    rw [if_neg he, if_neg h1, if_neg h2, if_pos h3, if_pos h4]
                    simp only [hj]⟩)
              · by_cases h5 : '=' ∈ s
                · exact Or.inr (Or.inl ⟨.obj (parseKeyValueString s), fun m => by
                    simp only [coerceOne, hv]
                    rw [if_neg he, if_neg h1, if_neg h2, if_pos h3, if_neg h4, if_pos h5]⟩)
                · by_cases h6 : jsTrim s = []
                  · exact Or.inr (Or.inl ⟨.obj [], fun m => by
                      simp only [coerceOne, hv]
                      rw [if_neg he, if_neg h1, if_neg h2, if_pos h3, if_neg h4,
                        if_neg h5, if_pos h6]⟩)
                  · exact Or.inl (fun m => by
                      simp only [coerceOne, hv]
                      rw [if_neg he, if_neg h1, if_neg h2, if_pos h3, if_neg h4,
                        if_neg h5, if_neg h6])
            · by_cases h7 : lowerStr pd.ptype = cl "array"
              · by_cases h8 : (jsTrim s).take 1 = ['[']
                · cases hj : jp s with
                  | some j =>
                    exact Or.inr (Or.inl ⟨j, fun m => by
                      simp only [coerceOne, hv]
                      rw [if_neg he, if_neg h1, if_neg h2, if_neg h3, if_pos h7, if_pos h8]
                      simp only [hj]⟩)
                  | none =>
                    exact Or.inr (Or.inl ⟨.arr (splitCommaClean s), fun m => by
                      simp only [coerceOne, hv]
                      rw [if_neg he, if_neg h1, if_neg h2, if_neg h3, if_pos h7, if_pos h8]
                      simp only [hj]⟩)
                · exact Or.inr (Or.inl ⟨.arr (splitCommaClean s), fun m => by
                    simp only [coerceOne, hv]
                    rw [if_neg he, if_neg h1, if_neg h2, if_neg h3, if_pos h7, if_neg h8]⟩)
              · exact Or.inl (fun m => by
                  simp only [coerceOne, hv]
                  rw [if_neg he, if_neg h1, if_neg h2, if_neg h3, if_neg h7])

theorem lookupA_coerceOne_ne (jp : List Char → Option Json)
    (params m : List (List Char × Json)) (pd : ParamDef) (k : List Char)
    (h : pd.name ≠ k) :
    lookupA k (coerceOne jp params m pd) = lookupA k m := by
  rcases coerceOne_action jp params pd with ha | ⟨w, ha⟩ | ha
  · rw [ha]
  · rw [ha]; exact lookupA_setKJ_ne _ _ _ _ h
  · rw [ha]; exact lookupA_delK_ne _ _ _ h

theorem nodup_keys_coerceOne (jp : List Char → Option Json)
    (params m : List (List Char × Json)) (pd : ParamDef)
    (h : (m.map Prod.fst).Nodup) :
    ((coerceOne jp params m pd).map Prod.fst).Nodup := by
  rcases coerceOne_action jp params pd with ha | ⟨w, ha⟩ | ha
  · rw [ha]; exact h
  · rw [ha]; exact nodup_keys_setKJ _ _ _ h
  · rw [ha]; exact nodup_keys_delK _ _ h

theorem lookupA_coerceFold_ne (jp : List Char → Option Json)
    (params : List (List Char × Json)) (k : List Char) :
    ∀ (defs : List ParamDef) (m : List (List Char × Json)),
    (∀ pd ∈ defs, pd.name ≠ k) →
    lookupA k (defs.foldl (coerceOne jp params) m) = lookupA k m := by
  intro defs
  induction defs with
  | nil => intro m _; rfl
  | cons pd rest ih =>
    intro m hall
    simp only [List.foldl_cons]
    rw [ih _ (fun q hq => hall q (List.mem_cons_of_mem _ hq)),
      lookupA_coerceOne_ne jp params m pd k (hall pd (List.mem_cons_self _ _))]

theorem nodup_keys_coerceFold (jp : List Char → Option Json)
    (params : List (List Char × Json)) :
    ∀ (defs : List ParamDef) (m : List (List Char × Json)),
    (m.map Prod.fst).Nodup →
    (((defs.foldl (coerceOne jp params) m)).map Prod.fst).Nodup := by
  intro defs
  induction defs with
  | nil => intro m h; exact h
  | cons pd rest ih =>
    intro m h
    simp only [List.foldl_cons]
    exact ih _ (nodup_keys_coerceOne jp params m pd h)

theorem lookupA_coerceOne_key (jp : List Char → Option Json)
    (params m : List (List Char × Json)) (pd : ParamDef)
    (hm : lookupA pd.name m = lookupA pd.name params)
    (hnm : (m.map Prod.fst).Nodup) (hnp : (params.map Prod.fst).Nodup) :
    lookupA pd.name (coerceOne jp params m pd) =
      lookupA pd.name (coerceOne jp params params pd) := by
  rcases coerceOne_action jp params pd with ha | ⟨w, ha⟩ | ha
  · rw [ha, ha]; exact hm
  · rw [ha, ha, lookupA_setKJ_self, lookupA_setKJ_self]
  · rw [ha, ha, lookupA_delK_self _ _ hnm, lookupA_delK_self _ _ hnp]

theorem lookup_coerceParameters (jp : List Char → Option Json) (tool : ToolT)
    (params : List (List Char × Json)) (pd : ParamDef)
    (hnd : (tool.parameters.map (fun p => p.name)).Nodup)
    (hpd : pd ∈ tool.parameters)
    (hkeys : (params.map Prod.fst).Nodup) :
    lookupA pd.name (coerceParameters jp tool params) =
      lookupA pd.name (coerceOne jp params params pd) := by
  obtain ⟨l1, l2, hsplit⟩ := List.append_of_mem hpd
  unfold coerceParameters
  rw [hsplit] at hnd ⊢
  rw [List.foldl_append, List.foldl_cons]
  have hmap : (l1 ++ pd :: l2).map (fun p : ParamDef => p.name) =
      l1.map (fun p => p.name) ++ pd.name :: l2.map (fun p => p.name) := by
    simp
  rw [hmap] at hnd
  have h2 : ∀ q ∈ l2, q.name ≠ pd.name := by
    intro q hq he
    have := (List.nodup_append.mp hnd).2.1
    rw [List.nodup_cons] at this
    exact this.1 (he ▸ List.mem_map_of_mem _ hq)
  have h1 : ∀ q ∈ l1, q.name ≠ pd.name := by
    intro q hq he
    have hdisj := (List.nodup_append.mp hnd).2.2
    have hin : q.name ∈ pd.name :: l2.map (fun p => p.name) := by
      rw [he]; exact List.mem_cons_self _ _
    exact hdisj (List.mem_map_of_mem _ hq) hin
  rw [lookupA_coerceFold_ne jp params pd.name l2 _ h2]
  exact lookupA_coerceOne_key jp params _ pd
    (lookupA_coerceFold_ne jp params pd.name l1 params h1)
    (nodup_keys_coerceFold jp params l1 params hkeys) hkeys

theorem isEmptyStrJ_ne (s : List Char) (hs : s ≠ []) :
    isEmptyStrJ (Json.str s) = false := by
  cases s with
  | nil => exact absurd rfl hs
  | cons c cs => rfl

theorem coerceOne_self_ne_empty (jp : List Char → Option Json)
    (params : List (List Char × Json)) (pd : ParamDef) (s : List Char)
    (hv : lookupA pd.name params = some (Json.str s)) (hs : s ≠ []) :
    coerceOne jp params params pd =
      (if lowerStr pd.ptype = cl "number" then
        match jsNumber s with
        | some n => setKJ params pd.name (.num n)
        | none => params
      else if lowerStr pd.ptype = cl "boolean" then
        setKJ params pd.name (.bool (decide (s = cl "true") || decide (s = cl "1")))
      else if lowerStr pd.ptype = cl "object" then
        if (jsTrim s).take 1 = ['{'] then
          match jp s with
          | some j => setKJ params pd.name j
          | none => setKJ params pd.name (.obj (parseKeyValueString s))
        else if '=' ∈ s then setKJ params pd.name (.obj (parseKeyValueString s))
        else if jsTrim s = [] then setKJ params pd.name (.obj [])
        else params
      else if lowerStr pd.ptype = cl "array" then
        if (jsTrim s).take 1 = ['['] then
          match jp s with
          | some j => setKJ params pd.name j
          | none => setKJ params pd.name (.arr (splitCommaClean s))
        else setKJ params pd.name (.arr (splitCommaClean s))
      else params) := by
  simp only [coerceOne, hv]
  rw [if_neg (by rw [isEmptyStrJ_ne s hs]; simp)]

theorem registryExecute_args (reg : List (List Char × ToolT)) (aid : List Char)
    (params : List (List Char × Json)) (res : ActionResult)
    (args : List (List Char × Json))
    (h : registryExecute reg aid params = (res, some args)) : args = params := by
  unfold registryExecute at h
  cases hreg : lookupA aid reg with
  | none =>
    rw [hreg] at h
    have := congrArg Prod.snd h
    simp at this
  | some tool =>
    rw [hreg] at h
    dsimp only at h
    split at h
    · have := congrArg Prod.snd h
      simp at this
    · split at h
      · have := congrArg Prod.snd h
        simp at this
        exact this.symm
      · have := congrArg Prod.snd h
        simp at this
        exact this.symm

theorem route_reduce (jp : List Char → Option Json) (reg : List (List Char × ToolT))
    (aid : List Char) (formData : List (List Char × Json)) (tool : ToolT)
    (haid : aid ≠ []) (hreg : lookupA aid reg = some tool) :
    route jp reg (.str aid) formData =
      (match validateParameters tool (coerceParameters jp tool formData) with
       | some d =>
         ((⟨false, .null, some ⟨cl "VALIDATION_ERROR", d⟩, none⟩ : ActionResult), none)
       | none =>
         let r := registryExecute reg aid (coerceParameters jp tool formData)
         ((⟨r.1.success, r.1.data, r.1.error, r.1.toolName⟩ : ActionResult), r.2)) := by
  cases hval : validateParameters tool (coerceParameters jp tool formData) with
  | some d => simp [route, truthy, haid, hreg, hval, jsTypeof]
  | none => simp [route, truthy, haid, hreg, hval, jsTypeof]

theorem route_empty_aid (jp : List Char → Option Json) (reg : List (List Char × ToolT))
    (formData : List (List Char × Json)) :
    route jp reg (.str []) formData =
      ((⟨false, .null, some ⟨cl "INVALID_ACTION_ID", .actionIdD (some (.str []))⟩,
        none⟩ : ActionResult), none) := by
  simp [route, truthy]

theorem vpStep_fst_mono (params : List (List Char × Json))
    (acc : List (List Char) × List (List Char × List Char × JsType)) (pd : ParamDef) :
    ∃ tail, (vpStep params acc pd).1 = acc.1 ++ tail := by
  unfold vpStep
  repeat' split
  all_goals
    first
    | exact ⟨[pd.name], rfl⟩
    | exact ⟨[], (List.append_nil _).symm⟩

theorem vpFold_fst_mono (params : List (List Char × Json)) :
    ∀ (defs : List ParamDef)
      (acc : List (List Char) × List (List Char × List Char × JsType)),
    ∃ tail, (defs.foldl (vpStep params) acc).1 = acc.1 ++ tail := by
  intro defs
  induction defs with
  | nil => intro acc; exact ⟨[], (List.append_nil _).symm⟩
  | cons pd rest ih =>
    intro acc
    obtain ⟨t1, h1⟩ := vpStep_fst_mono params acc pd
    obtain ⟨t2, h2⟩ := ih (vpStep params acc pd)
    refine ⟨t1 ++ t2, ?_⟩
    rw [List.foldl_cons, h2, h1, List.append_assoc]

theorem vpFold_mem (params : List (List Char × Json)) :
    ∀ (defs : List ParamDef)
      (acc : List (List Char) × List (List Char × List Char × JsType))
      (pd : ParamDef), pd ∈ defs →
    pd.required = true → lookupA pd.name params = some (Json.str []) →
    pd.name ∈ (defs.foldl (vpStep params) acc).1 := by
  intro defs
  induction defs with
  | nil => intro acc pd h; cases h
  | cons q rest ih =>
    intro acc pd hmem hreq hl
    rw [List.foldl_cons]
    rcases List.mem_cons.mp hmem with heq | hmem2
    · subst heq
      obtain ⟨t2, h2⟩ := vpFold_fst_mono params rest (vpStep params acc pd)
      rw [h2]
      have hone : (vpStep params acc pd).1 = acc.1 ++ [pd.name] := by
        simp [vpStep, hl, hreq, isNullJ, isEmptyStrJ]
      rw [hone]
      simp
    · exact ih _ pd hmem2 hreq hl

theorem validateParameters_missing (tool : ToolT) (params : List (List Char × Json))
    (pd : ParamDef) (hpd : pd ∈ tool.parameters) (hreq : pd.required = true)
    (hl : lookupA pd.name params = some (Json.str [])) :
    ∃ miss, validateParameters tool params = some (.missing miss (params.map Prod.fst)) ∧
      pd.name ∈ miss := by
  have hmem := vpFold_mem params tool.parameters ([], []) pd hpd hreq hl
  refine ⟨(tool.parameters.foldl (vpStep params) ([], [])).1, ?_, hmem⟩
  simp only [validateParameters]
  rw [if_pos (List.ne_nil_of_mem hmem)]

/-- **C7.** Parameter coercion in `ToolRouter.route` before validation: a
declared `number` parameter submitted as a numeric string (such as
`"42"`, with `Number("42") = 42`) reaches the coerced map — the exact map
handed to the handler by `route` — as that number; a declared `boolean`
parameter submitted as `"true"` or `"1"` becomes `true`; an object-typed
string in `key=value` form becomes the parsed object and in JSON-object
form (leading `{`) becomes the JSON-parsed value; an array-typed string
becomes the JSON-parsed value when it starts with `[` and the
comma-split string array otherwise; an optional parameter submitted as
the empty string is removed from the map entirely; and whenever `route`
invokes a handler, the arguments are exactly
`coerceParameters` of the submitted form data. -/
theorem C7_coercion :
    (∀ (jp : List Char → Option Json) (tool : ToolT)
        (params : List (List Char × Json)) (pd : ParamDef) (s : List Char) (n : Int),
      (tool.parameters.map (fun p => p.name)).Nodup → pd ∈ tool.parameters →
      (params.map Prod.fst).Nodup →
      lowerStr pd.ptype = cl "number" →
      lookupA pd.name params = some (.str s) → s ≠ [] → jsNumber s = some n →
      lookupA pd.name (coerceParameters jp tool params) = some (.num n)) ∧
    jsNumber (cl "42") = some 42 ∧
    (∀ (jp : List Char → Option Json) (tool : ToolT)
        (params : List (List Char × Json)) (pd : ParamDef) (s : List Char),
      (tool.parameters.map (fun p => p.name)).Nodup → pd ∈ tool.parameters →
      (params.map Prod.fst).Nodup →
      lowerStr pd.ptype = cl "boolean" →
      lookupA pd.name params = some (.str s) →
      (s = cl "true" ∨ s = cl "1") →
      lookupA pd.name (coerceParameters jp tool params) = some (.bool true)) ∧
    (∀ (jp : List Char → Option Json) (tool : ToolT)
        (params : List (List Char × Json)) (pd : ParamDef) (s : List Char),
      (tool.parameters.map (fun p => p.name)).Nodup → pd ∈ tool.parameters →
      (params.map Prod.fst).Nodup →
      lowerStr pd.ptype = cl "object" →
      lookupA pd.name params = some (.str s) → s ≠ [] →
      (jsTrim s).take 1 ≠ ['{'] → '=' ∈ s →
      lookupA pd.name (coerceParameters jp tool params) =
        some (.obj (parseKeyValueString s))) ∧
    (∀ (jp : List Char → Option Json) (tool : ToolT)
        (params : List (List Char × Json)) (pd : ParamDef) (s : List Char) (j : Json),
      (tool.parameters.map (fun p => p.name)).Nodup → pd ∈ tool.parameters →
      (params.map Prod.fst).Nodup →
      lowerStr pd.ptype = cl "object" →
      lookupA pd.name params = some (.str s) → s ≠ [] →
      (jsTrim s).take 1 = ['{'] → jp s = some j →
      lookupA pd.name (coerceParameters jp tool params) = some j) ∧
    (∀ (jp : List Char → Option Json) (tool : ToolT)
        (params : List (List Char × Json)) (pd : ParamDef) (s : List Char) (j : Json),
      (tool.parameters.map (fun p => p.name)).Nodup → pd ∈ tool.parameters →
      (params.map Prod.fst).Nodup →
      lowerStr pd.ptype = cl "array" →
      lookupA pd.name params = some (.str s) → s ≠ [] →
      (jsTrim s).take 1 = ['['] → jp s = some j →
      lookupA pd.name (coerceParameters jp tool params) = some j) ∧
    (∀ (jp : List Char → Option Json) (tool : ToolT)
        (params : List (List Char × Json)) (pd : ParamDef) (s : List Char),
      (tool.parameters.map (fun p => p.name)).Nodup → pd ∈ tool.parameters →
      (params.map Prod.fst).Nodup →
      lowerStr pd.ptype = cl "array" →
      lookupA pd.name params = some (.str s) → s ≠ [] →
      (jsTrim s).take 1 ≠ ['['] →
      lookupA pd.name (coerceParameters jp tool params) =
        some (.arr (splitCommaClean s))) ∧
    (∀ (jp : List Char → Option Json) (tool : ToolT)
        (params : List (List Char × Json)) (pd : ParamDef),
      (tool.parameters.map (fun p => p.name)).Nodup → pd ∈ tool.parameters →
      (params.map Prod.fst).Nodup →
      pd.required = false →
      lookupA pd.name params = some (.str []) →
      lookupA pd.name (coerceParameters jp tool params) = none) ∧
    (∀ (jp : List Char → Option Json) (reg : List (List Char × ToolT))
        (aid : List Char) (formData : List (List Char × Json)) (tool : ToolT)
        (res : ActionResult) (args : List (List Char × Json)),
      lookupA aid reg = some tool →
      route jp reg (.str aid) formData = (res, some args) →
      args = coerceParameters jp tool formData) := by
  refine ⟨?_, by decide, ?_, ?_, ?_, ?_, ?_, ?_, ?_⟩
  · intro jp tool params pd s n hnd hpd hkeys ht hv hs hn
    rw [lookup_coerceParameters jp tool params pd hnd hpd hkeys,
      coerceOne_self_ne_empty jp params pd s hv hs, if_pos ht]
    simp only [hn]
    exact lookupA_setKJ_self _ _ _
  · intro jp tool params pd s hnd hpd hkeys ht hv hcase
    have hs : s ≠ [] := by
      rcases hcase with h | h <;> subst h <;> decide
    have hnum : lowerStr pd.ptype ≠ cl "number" := by rw [ht]; decide
    rw [lookup_coerceParameters jp tool params pd hnd hpd hkeys,
      coerceOne_self_ne_empty jp params pd s hv hs, if_neg hnum, if_pos ht,
      lookupA_setKJ_self]
    rcases hcase with h | h <;> subst h
    · rw [show (decide (cl "true" = cl "true") || decide (cl "true" = cl "1")) = true
        from by decide]
    · rw [show (decide (cl "1" = cl "true") || decide (cl "1" = cl "1")) = true
        from by decide]
  · intro jp tool params pd s hnd hpd hkeys ht hv hs htake heq
    have hnum : lowerStr pd.ptype ≠ cl "number" := by rw [ht]; decide
    have hbool : lowerStr pd.ptype ≠ cl "boolean" := by rw [ht]; decide
    rw [lookup_coerceParameters jp tool params pd hnd hpd hkeys,
      coerceOne_self_ne_empty jp params pd s hv hs, if_neg hnum, if_neg hbool,
      if_pos ht, if_neg htake, if_pos heq]
    exact lookupA_setKJ_self _ _ _
  · intro jp tool params pd s j hnd hpd hkeys ht hv hs htake hj
    have hnum : lowerStr pd.ptype ≠ cl "number" := by rw [ht]; decide
    have hbool : lowerStr pd.ptype ≠ cl "boolean" := by rw [ht]; decide
    rw [lookup_coerceParameters jp tool params pd hnd hpd hkeys,
      coerceOne_self_ne_empty jp params pd s hv hs, if_neg hnum, if_neg hbool,
      if_pos ht, if_pos htake]
    simp only [hj]
    exact lookupA_setKJ_self _ _ _
  · intro jp tool params pd s j hnd hpd hkeys ht hv hs htake hj
    have hnum : lowerStr pd.ptype ≠ cl "number" := by rw [ht]; decide
    have hbool : lowerStr pd.ptype ≠ cl "boolean" := by rw [ht]; decide
    have hobj : lowerStr pd.ptype ≠ cl "object" := by rw [ht]; decide
    rw [lookup_coerceParameters jp tool params pd hnd hpd hkeys,
      coerceOne_self_ne_empty jp params pd s hv hs, if_neg hnum, if_neg hbool,
      if_neg hobj, if_pos ht, if_pos htake]
    simp only [hj]
    exact lookupA_setKJ_self _ _ _
  · intro jp tool params pd s hnd hpd hkeys ht hv hs htake
    have hnum : lowerStr pd.ptype ≠ cl "number" := by rw [ht]; decide
    have hbool : lowerStr pd.ptype ≠ cl "boolean" := by rw [ht]; decide
    have hobj : lowerStr pd.ptype ≠ cl "object" := by rw [ht]; decide
    rw [lookup_coerceParameters jp tool params pd hnd hpd hkeys,
      coerceOne_self_ne_empty jp params pd s hv hs, if_neg hnum, if_neg hbool,
      if_neg hobj, if_pos ht, if_neg htake]
    exact lookupA_setKJ_self _ _ _
  · intro jp tool params pd hnd hpd hkeys hopt hv
    rw [lookup_coerceParameters jp tool params pd hnd hpd hkeys]
    simp only [coerceOne, hv]
    rw [if_pos (by rw [hopt]; rfl)]
    exact lookupA_delK_self _ _ hkeys
  · intro jp reg aid formData tool res args hreg hroute
    by_cases haid : aid = []
    · subst haid
      rw [route_empty_aid] at hroute
      have := congrArg Prod.snd hroute
      simp at this
    · rw [route_reduce jp reg aid formData tool haid hreg] at hroute
      cases hval : validateParameters tool (coerceParameters jp tool formData) with
      | some d =>
        rw [hval] at hroute
        have := congrArg Prod.snd hroute
        simp at this
      | none =>
        rw [hval] at hroute
        have hsnd := congrArg Prod.snd hroute
        simp only at hsnd
        exact registryExecute_args reg aid _ _ args (by rw [← hsnd])

/-- Witness for C7 at concrete inputs: every coercion branch exercised
against `toolMix`/`mixParams` (number, boolean via "true" and "1",
key=value object, JSON object, JSON array, comma-split array, optional
empty string removed), and `route` hands the handler exactly the coerced
map for `toolNumReq`. -/
theorem C7_coercion_witness :
    lookupA (cl "n") (coerceParameters jparseNone toolMix mixParams) =
      some (.num 42) ∧
    jsNumber (cl "42") = some 42 ∧
    lookupA (cl "b") (coerceParameters jparseNone toolMix mixParams) =
      some (.bool true) ∧
    lookupA (cl "b2") (coerceParameters jparseNone toolMix mixParams) =
      some (.bool true) ∧
    lookupA (cl "o") (coerceParameters jparseNone toolMix mixParams) =
      some (.obj (parseKeyValueString (cl "Environment=Production, Region=us-east"))) ∧
    lookupA (cl "o")
      (coerceParameters (fun _ => some Json.null) toolMix [(cl "o", .str (cl "{}"))]) =
      some Json.null ∧
    lookupA (cl "a")
      (coerceParameters (fun _ => some Json.null) toolMix [(cl "a", .str (cl "[1]"))]) =
      some Json.null ∧
    lookupA (cl "a") (coerceParameters jparseNone toolMix mixParams) =
      some (.arr (splitCommaClean (cl "x, y, z"))) ∧
    lookupA (cl "opt") (coerceParameters jparseNone toolMix mixParams) = none ∧
    [(cl "n", Json.num 42)] =
      coerceParameters jparseNone toolNumReq [(cl "n", .str (cl "42"))] :=
  ⟨C7_coercion.1 jparseNone toolMix mixParams ⟨cl "n", cl "number", false⟩
      (cl "42") 42 (by decide) (by decide) (by decide) (by decide) rfl
      (by decide) (by decide),
   C7_coercion.2.1,
   C7_coercion.2.2.1 jparseNone toolMix mixParams ⟨cl "b", cl "boolean", false⟩
      (cl "true") (by decide) (by decide) (by decide) (by decide) rfl (Or.inl rfl),
   C7_coercion.2.2.1 jparseNone toolMix mixParams ⟨cl "b2", cl "boolean", false⟩
      (cl "1") (by decide) (by decide) (by decide) (by decide) rfl (Or.inr rfl),
   C7_coercion.2.2.2.1 jparseNone toolMix mixParams ⟨cl "o", cl "object", false⟩
      (cl "Environment=Production, Region=us-east") (by decide) (by decide)
      (by decide) (by decide) rfl (by decide) (by decide) (by decide),
   C7_coercion.2.2.2.2.1 (fun _ => some Json.null) toolMix
      [(cl "o", .str (cl "{}"))] ⟨cl "o", cl "object", false⟩ (cl "{}") Json.null
      (by decide) (by decide) (by decide) (by decide) rfl (by decide) (by decide) rfl,
   C7_coercion.2.2.2.2.2.1 (fun _ => some Json.null) toolMix
      [(cl "a", .str (cl "[1]"))] ⟨cl "a", cl "array", false⟩ (cl "[1]") Json.null
      (by decide) (by decide) (by decide) (by decide) rfl (by decide) (by decide) rfl,
   C7_coercion.2.2.2.2.2.2.1 jparseNone toolMix mixParams ⟨cl "a", cl "array", false⟩
      (cl "x, y, z") (by decide) (by decide) (by decide) (by decide) rfl
      (by decide) (by decide),
   C7_coercion.2.2.2.2.2.2.2.1 jparseNone toolMix mixParams
      ⟨cl "opt", cl "string", false⟩ (by decide) (by decide) (by decide) rfl rfl,
   C7_coercion.2.2.2.2.2.2.2.2 jparseNone regNumReq (cl "create_thing")
      [(cl "n", .str (cl "42"))]
      toolNumReq ⟨true, .str (cl "made"), none, some (cl "createThing")⟩
      [(cl "n", Json.num 42)] rfl rfl⟩

/-- Refutes C10 as stated: `create_thing` has a *required* `number`
parameter `n`, yet submitting `n = ""` does not produce a
`VALIDATION_ERROR` — coercion turns the empty string into the number `0`
(`Number("") === 0`) before validation runs, and the handler is invoked
with `n = 0`. -/
theorem C10_counterexample :
    route jparseNone regNumReq (.str (cl "create_thing")) [(cl "n", .str [])] =
      (⟨true, .str (cl "made"), none, some (cl "createThing")⟩,
       some [(cl "n", Json.num 0)]) := rfl

/-- **C10** (corrected). A required parameter submitted as the empty
string is treated as missing only when its declared type is outside the
four coercible ones (`number`, `boolean`, `object`, `array` - in
particular for `string`-typed parameters): then `route` fails with
`VALIDATION_ERROR`, the parameter's name is listed in `missingRequired`,
and the handler is never invoked. For a required `number`, `boolean`,
`object` or `array` parameter, the empty string is instead coerced to
`0`, `false`, `{}` or `[]` respectively before validation. -/
theorem C10_required_empty :
    (∀ (jp : List Char → Option Json) (reg : List (List Char × ToolT))
        (aid : List Char) (formData : List (List Char × Json)) (tool : ToolT)
        (pd : ParamDef),
      aid ≠ [] → lookupA aid reg = some tool →
      (tool.parameters.map (fun p => p.name)).Nodup → pd ∈ tool.parameters →
      (formData.map Prod.fst).Nodup →
      pd.required = true →
      lowerStr pd.ptype ≠ cl "number" → lowerStr pd.ptype ≠ cl "boolean" →
      lowerStr pd.ptype ≠ cl "object" → lowerStr pd.ptype ≠ cl "array" →
      lookupA pd.name formData = some (.str []) →
      ∃ miss prov, route jp reg (.str aid) formData =
        ((⟨false, .null, some ⟨cl "VALIDATION_ERROR", .missing miss prov⟩,
          none⟩ : ActionResult), none) ∧
        pd.name ∈ miss) ∧
    (∀ (jp : List Char → Option Json) (tool : ToolT)
        (params : List (List Char × Json)) (pd : ParamDef),
      (tool.parameters.map (fun p => p.name)).Nodup → pd ∈ tool.parameters →
      (params.map Prod.fst).Nodup → pd.required = true →
      lowerStr pd.ptype = cl "number" →
      lookupA pd.name params = some (.str []) →
      lookupA pd.name (coerceParameters jp tool params) = some (.num 0)) ∧
    (∀ (jp : List Char → Option Json) (tool : ToolT)
        (params : List (List Char × Json)) (pd : ParamDef),
      (tool.parameters.map (fun p => p.name)).Nodup → pd ∈ tool.parameters →
      (params.map Prod.fst).Nodup → pd.required = true →
      lowerStr pd.ptype = cl "boolean" →
      lookupA pd.name params = some (.str []) →
      lookupA pd.name (coerceParameters jp tool params) = some (.bool false)) ∧
    (∀ (jp : List Char → Option Json) (tool : ToolT)
        (params : List (List Char × Json)) (pd : ParamDef),
      (tool.parameters.map (fun p => p.name)).Nodup → pd ∈ tool.parameters →
      (params.map Prod.fst).Nodup → pd.required = true →
      lowerStr pd.ptype = cl "object" →
      lookupA pd.name params = some (.str []) →
      lookupA pd.name (coerceParameters jp tool params) = some (.obj [])) ∧
    (∀ (jp : List Char → Option Json) (tool : ToolT)
        (params : List (List Char × Json)) (pd : ParamDef),
      (tool.parameters.map (fun p => p.name)).Nodup → pd ∈ tool.parameters →
      (params.map Prod.fst).Nodup → pd.required = true →
      lowerStr pd.ptype = cl "array" →
      lookupA pd.name params = some (.str []) →
      lookupA pd.name (coerceParameters jp tool params) = some (.arr [])) := by
  refine ⟨?_, ?_, ?_, ?_, ?_⟩
  · intro jp reg aid formData tool pd haid hreg hnd hpd hkeys hreq hnum hbool hobj harr hv
    have hco : lookupA pd.name (coerceParameters jp tool formData) =
        some (.str []) := by
      rw [lookup_coerceParameters jp tool formData pd hnd hpd hkeys]
      simp only [coerceOne, hv]
      rw [if_neg (by rw [hreq]; decide), if_neg hnum, if_neg hbool, if_neg hobj,
        if_neg harr]
      exact hv
    obtain ⟨miss, hval, hmem⟩ :=
      validateParameters_missing tool _ pd hpd hreq hco
    refine ⟨miss, (coerceParameters jp tool formData).map Prod.fst, ?_, hmem⟩
    rw [route_reduce jp reg aid formData tool haid hreg, hval]
  · intro jp tool params pd hnd hpd hkeys hreq ht hv
    rw [lookup_coerceParameters jp tool params pd hnd hpd hkeys]
    simp only [coerceOne, hv]
    rw [if_neg (by rw [hreq]; decide), if_pos ht]
    rw [show jsNumber [] = some 0 from rfl]
    exact lookupA_setKJ_self _ _ _
  · intro jp tool params pd hnd hpd hkeys hreq ht hv
    have hnum : lowerStr pd.ptype ≠ cl "number" := by rw [ht]; decide
    rw [lookup_coerceParameters jp tool params pd hnd hpd hkeys]
    simp only [coerceOne, hv]
    rw [if_neg (by rw [hreq]; decide), if_neg hnum, if_pos ht,
      show (decide (([] : List Char) = cl "true") || decide (([] : List Char) = cl "1")) =
        false from by decide]
    exact lookupA_setKJ_self _ _ _
  · intro jp tool params pd hnd hpd hkeys hreq ht hv
    have hnum : lowerStr pd.ptype ≠ cl "number" := by rw [ht]; decide
    have hbool : lowerStr pd.ptype ≠ cl "boolean" := by rw [ht]; decide
    rw [lookup_coerceParameters jp tool params pd hnd hpd hkeys]
    simp only [coerceOne, hv]
    rw [if_neg (by rw [hreq]; decide), if_neg hnum, if_neg hbool, if_pos ht,
      if_neg (by decide), if_neg (by decide), if_pos (by decide)]
    exact lookupA_setKJ_self _ _ _
  · intro jp tool params pd hnd hpd hkeys hreq ht hv
    have hnum : lowerStr pd.ptype ≠ cl "number" := by rw [ht]; decide
    have hbool : lowerStr pd.ptype ≠ cl "boolean" := by rw [ht]; decide
    have hobj : lowerStr pd.ptype ≠ cl "object" := by rw [ht]; decide
    rw [lookup_coerceParameters jp tool params pd hnd hpd hkeys]
    simp only [coerceOne, hv]
    rw [if_neg (by rw [hreq]; decide), if_neg hnum, if_neg hbool, if_neg hobj,
      if_pos ht, if_neg (by decide),
      show splitCommaClean [] = [] from rfl]
    exact lookupA_setKJ_self _ _ _

/-- Witness for C10 at concrete inputs: the required `string` parameter
`s` of `name_thing` submitted as `""` yields `VALIDATION_ERROR` with `s`
in `missingRequired` and no handler invocation, while the four required
coercible parameters of `toolAllReq` submitted as `""` are coerced to
`0`, `false`, `{}` and `[]`. -/
theorem C10_required_empty_witness :
    (∃ miss prov,
      route jparseNone regStrReq (.str (cl "name_thing")) [(cl "s", .str [])] =
        ((⟨false, .null, some ⟨cl "VALIDATION_ERROR", .missing miss prov⟩,
          none⟩ : ActionResult), none) ∧
      cl "s" ∈ miss) ∧
    lookupA (cl "n") (coerceParameters jparseNone toolAllReq emptyAll) =
      some (.num 0) ∧
    lookupA (cl "b") (coerceParameters jparseNone toolAllReq emptyAll) =
      some (.bool false) ∧
    lookupA (cl "o") (coerceParameters jparseNone toolAllReq emptyAll) =
      some (.obj []) ∧
    lookupA (cl "a") (coerceParameters jparseNone toolAllReq emptyAll) =
      some (.arr []) :=
  ⟨C10_required_empty.1 jparseNone regStrReq (cl "name_thing") [(cl "s", .str [])]
      toolStrReq ⟨cl "s", cl "string", true⟩ (by decide) rfl (by decide) (by decide)
      (by decide) (by decide) (by decide) (by decide) (by decide) (by decide) rfl,
   C10_required_empty.2.1 jparseNone toolAllReq emptyAll ⟨cl "n", cl "number", true⟩
      (by decide) (by decide) (by decide) (by decide) (by decide) rfl,
   C10_required_empty.2.2.1 jparseNone toolAllReq emptyAll ⟨cl "b", cl "boolean", true⟩
      (by decide) (by decide) (by decide) (by decide) (by decide) rfl,
   C10_required_empty.2.2.2.1 jparseNone toolAllReq emptyAll ⟨cl "o", cl "object", true⟩
      (by decide) (by decide) (by decide) (by decide) (by decide) rfl,
   C10_required_empty.2.2.2.2 jparseNone toolAllReq emptyAll ⟨cl "a", cl "array", true⟩
      (by decide) (by decide) (by decide) (by decide) (by decide) rfl⟩

theorem digitChar_isDigit (d : Nat) : (digitChar d).isDigit = true := by
  unfold digitChar
  split <;> decide

theorem natDecGo_digits : ∀ (fuel n : Nat) (acc : List Char),
    acc.all Char.isDigit = true → (natDecGo fuel n acc).all Char.isDigit = true := by
  intro fuel
  induction fuel with
  | zero => intro n acc h; exact h
  | succ f ih =>
    intro n acc h
    unfold natDecGo
    split
    · exact h
    · refine ih _ _ ?_
      simp only [List.all_cons, Bool.and_eq_true]
      exact ⟨digitChar_isDigit _, h⟩

theorem natDec_digits (n : Nat) : (natDec n).all Char.isDigit = true := by
  unfold natDec
  split
  · decide
  · exact natDecGo_digits _ _ _ rfl

theorem natDecGo_suffix : ∀ (fuel n : Nat) (acc : List Char),
    ∃ pre, natDecGo fuel n acc = pre ++ acc := by
  intro fuel
  induction fuel with
  | zero => intro n acc; exact ⟨[], rfl⟩
  | succ f ih =>
    intro n acc
    unfold natDecGo
    split
    · exact ⟨[], rfl⟩
    · obtain ⟨pre, hp⟩ := ih (n / 10) (digitChar (n % 10) :: acc)
      exact ⟨pre ++ [digitChar (n % 10)], by rw [hp]; simp⟩

theorem natDec_ne_nil (n : Nat) : natDec n ≠ [] := by
  unfold natDec
  split
  · decide
  · next hn =>
    cases n with
    | zero => exact absurd rfl hn
    | succ m =>
      show natDecGo (m + 1) (m + 1) [] ≠ []
      unfold natDecGo
      rw [if_neg (Nat.succ_ne_zero m)]
      obtain ⟨pre, hp⟩ := natDecGo_suffix m ((m + 1) / 10) [digitChar ((m + 1) % 10)]
      rw [hp]
      simp

theorem decNat?_natDec_isSome (n : Nat) : (decNat? (natDec n)).isSome = true := by
  have h1 := natDec_ne_nil n
  have h2 := natDec_digits n
  unfold decNat?
  cases hc : natDec n with
  | nil => exact absurd hc h1
  | cons c cs =>
    rw [hc] at h2
    simp only [h2, if_true]
    rfl

theorem lookupK_map_keys_mem (f : List Char → Json) :
    ∀ (ks : List (List Char)) (k : List Char), k ∈ ks →
    lookupK k (ks.map (fun k2 => (k2, f k2))) = some (f k) := by
  intro ks
  induction ks with
  | nil => intro k h; cases h
  | cons k0 rest ih =>
    intro k h
    simp only [List.map_cons, lookupK]
    by_cases h0 : k0 = k
    · rw [if_pos h0, h0]
    · rw [if_neg h0]
      rcases List.mem_cons.mp h with h1 | h1
      · exact absurd h1.symm h0
      · exact ih k h1

theorem lookupK_map_keys_not_mem (f : List Char → Json) :
    ∀ (ks : List (List Char)) (k : List Char), k ∉ ks →
    lookupK k (ks.map (fun k2 => (k2, f k2))) = none := by
  intro ks
  induction ks with
  | nil => intro k _; rfl
  | cons k0 rest ih =>
    intro k h
    simp only [List.mem_cons, not_or] at h
    simp only [List.map_cons, lookupK]
    rw [if_neg (fun hh => h.1 hh.symm)]
    exact ih k h.2

theorem lookupK_mem : ∀ (l : List (List Char × Json)) (k : List Char) (v : Json),
    lookupK k l = some v → (k, v) ∈ l := by
  intro l
  induction l with
  | nil => intro k v h; cases h
  | cons p rest ih =>
    intro k v h
    obtain ⟨k0, v0⟩ := p
    simp only [lookupK] at h
    split at h
    · next h0 => cases h; exact h0 ▸ List.mem_cons_self _ _
    · exact List.mem_cons_of_mem _ (ih k v h)

theorem lookupK_ne_none_of_mem : ∀ (l : List (List Char × Json)) (k : List Char),
    k ∈ l.map Prod.fst → lookupK k l ≠ none := by
  intro l
  induction l with
  | nil => intro k h; cases h
  | cons p rest ih =>
    intro k h
    obtain ⟨k0, v0⟩ := p
    simp only [List.map_cons, List.mem_cons] at h
    simp only [lookupK]
    by_cases h0 : k0 = k
    · rw [if_pos h0]; exact fun hh => by cases hh
    · rw [if_neg h0]
      rcases h with h1 | h1
      · exact absurd h1.symm h0
      · exact ih k h1

theorem sortedKeysOf_mem (props : Json) (k : List Char) :
    k ∈ sortedKeysOf props ↔ k ∈ jsKeys props :=
  (List.perm_insertionSort KeyLe (jsKeys props)).mem_iff

theorem jsGet_normProps (p : Json) (k : List Char) (hk : decNat? k = none)
    (hlen : k ≠ cl "length") : jsGet (normProps p) k = jsGet p k := by
  cases p with
  | null => rfl
  | bool b => rfl
  | num n => rfl
  | str s =>
    show lookupK k _ = _
    rw [lookupK_map_keys_not_mem]
    · simp only [jsGet]
      rw [if_neg hlen, hk]
    · intro hmem
      rw [sortedKeysOf_mem] at hmem
      simp only [jsKeys, List.mem_map] at hmem
      obtain ⟨i, _, hi⟩ := hmem
      have := decNat?_natDec_isSome i
      rw [hi, hk] at this
      cases this
  | arr xs =>
    show lookupK k _ = _
    rw [lookupK_map_keys_not_mem]
    · simp only [jsGet]
      rw [if_neg hlen, hk]
    · intro hmem
      rw [sortedKeysOf_mem] at hmem
      simp only [jsKeys, List.mem_map] at hmem
      obtain ⟨i, _, hi⟩ := hmem
      have := decNat?_natDec_isSome i
      rw [hi, hk] at this
      cases this
  | obj m =>
    show lookupK k _ = _
    by_cases hmem : k ∈ jsKeys (.obj m)
    · rw [lookupK_map_keys_mem _ _ _ ((sortedKeysOf_mem _ _).mpr hmem)]
      simp only [jsKeys] at hmem
      cases hv : lookupK k m with
      | none => exact absurd hv (lookupK_ne_none_of_mem m k hmem)
      | some v => simp [jsGet, hv]
    · rw [lookupK_map_keys_not_mem _ _ _ (fun hh => hmem ((sortedKeysOf_mem _ _).mp hh))]
      simp only [jsKeys] at hmem
      simp only [jsGet]
      cases hv : lookupK k m with
      | none => rfl
      | some v => exact absurd (List.mem_map_of_mem Prod.fst (lookupK_mem m k v hv)) hmem

theorem litThen_short : ∀ (pat : List Char) (k : List Char → Bool) (cs : List Char),
    cs.length < pat.length → litThen pat k cs = false := by
  intro pat
  induction pat with
  | nil => intro k cs h; simp at h
  | cons p ps ih =>
    intro k cs h
    cases cs with
    | nil => rfl
    | cons c cs2 =>
      show (decide (p = c) && litThen ps k cs2) = false
      rw [ih k cs2 (Nat.lt_of_succ_lt_succ h), Bool.and_false]

theorem matchAnywhere_single_lit (pat : List Char) (hp : 2 ≤ pat.length)
    (k : List Char → Bool) (prev : Bool) (c : Char) :
    matchAnywhere (fun _ => litThen pat k) prev [c] = false := by
  simp only [matchAnywhere]
  rw [litThen_short pat k [c] (Nat.lt_of_lt_of_le Nat.one_lt_two hp),
    litThen_short pat k [] (Nat.lt_of_lt_of_le Nat.zero_lt_two hp)]
  rfl

theorem matchAnywhere_single_bnd (pat : List Char) (hp : 2 ≤ pat.length)
    (k : List Char → Bool) (prev : Bool) (c : Char) :
    matchAnywhere (boundaryLit pat k) prev [c] = false := by
  simp only [matchAnywhere, boundaryLit]
  rw [litThen_short pat k [c] (Nat.lt_of_lt_of_le Nat.one_lt_two hp),
    litThen_short pat k [] (Nat.lt_of_lt_of_le Nat.zero_lt_two hp)]
  simp

theorem isDangerousStr_single (c : Char) : isDangerousStr [c] = false := by
  unfold isDangerousStr dangerousMatchers
  simp only [List.map_cons, List.map_nil, List.any_cons, List.any_nil]
  rw [matchAnywhere_single_lit _ (by decide) _ _ _,
    matchAnywhere_single_bnd _ (by decide) _ _ _,
    matchAnywhere_single_lit _ (by decide) _ _ _,
    matchAnywhere_single_lit _ (by decide) _ _ _,
    matchAnywhere_single_lit _ (by decide) _ _ _,
    matchAnywhere_single_lit _ (by decide) _ _ _,
    matchAnywhere_single_lit _ (by decide) _ _ _,
    matchAnywhere_single_lit _ (by decide) _ _ _,
    matchAnywhere_single_bnd _ (by decide) _ _ _,
    matchAnywhere_single_bnd _ (by decide) _ _ _,
    matchAnywhere_single_lit _ (by decide) _ _ _,
    matchAnywhere_single_lit _ (by decide) _ _ _,
    matchAnywhere_single_lit _ (by decide) _ _ _,
    matchAnywhere_single_lit _ (by decide) _ _ _,
    matchAnywhere_single_lit _ (by decide) _ _ _]
  rfl

theorem hasDanger_jsGet {v w : Json} {k : List Char}
    (h : jsGet v k = some w) (hd : HasDanger w) : HasDanger v := by
  cases v with
  | null => cases h
  | bool b => cases h
  | num n => cases h
  | str s =>
    simp only [jsGet] at h
    split at h
    · cases h; cases hd
    · split at h
      · next i hi =>
        cases hg : s.get? i with
        | none => rw [hg] at h; cases h
        | some ch =>
          rw [hg] at h
          cases h
          cases hd with
          | str hdd => rw [isDangerousStr_single ch] at hdd; cases hdd
      · cases h
  | arr xs =>
    simp only [jsGet] at h
    split at h
    · cases h; cases hd
    · split at h
      · next i hi => exact HasDanger.arrMem (List.get?_mem h) hd
      · cases h
  | obj m => exact HasDanger.objMem (lookupK_mem m k w h) hd

theorem hasDanger_getD {v : Json} (k : List Char)
    (hd : HasDanger ((jsGet v k).getD .null)) : HasDanger v := by
  cases hg : jsGet v k with
  | none => rw [hg] at hd; cases hd
  | some w => rw [hg] at hd; exact hasDanger_jsGet hg hd

theorem hasDanger_normProps {p : Json} (hd : HasDanger (normProps p)) :
    HasDanger p := by
  cases hd with
  | objMem hmem hv =>
    next k v =>
    rw [List.mem_map] at hmem
    obtain ⟨k2, _, hk2⟩ := hmem
    cases hk2
    exact hasDanger_getD _ hv

theorem hasDanger_normalizeComponent {c : Json}
    (hd : HasDanger (normalizeComponent c)) : HasDanger c := by
  unfold normalizeComponent at hd
  split at hd
  · exact hd
  · next t ht =>
    cases hd with
    | objMem hmem hv =>
      next k v =>
      simp only [List.mem_singleton] at hmem
      cases hmem
      exact hasDanger_getD t (hasDanger_normProps hv)

theorem hasDanger_normEntry {e : Json} (hd : HasDanger (normEntry e)) :
    HasDanger e := by
  unfold normEntry at hd
  cases hd with
  | objMem hmem hv =>
    next k v =>
    simp only [List.mem_cons, List.mem_singleton] at hmem
    rcases hmem with h1 | h1 | h1
    · cases h1; exact hasDanger_getD _ hv
    · cases h1; exact hasDanger_getD _ (hasDanger_normalizeComponent hv)
    · cases h1

theorem hasDanger_componentsOf {S e : Json} (he : e ∈ componentsOf S)
    (hd : HasDanger e) : HasDanger S := by
  unfold componentsOf at he
  split at he
  · next su hsu =>
    split at he
    · next l hl =>
      exact hasDanger_jsGet hsu (hasDanger_jsGet hl (HasDanger.arrMem he hd))
    · cases he
  · cases he

theorem hasDanger_print {S : Json} (hd : HasDanger (print S)) : HasDanger S := by
  unfold print at hd
  cases hd with
  | objMem hmem hv =>
    next k v =>
    simp only [List.mem_singleton] at hmem
    cases hmem
    cases hv with
    | objMem hmem2 hv2 =>
      next k2 v2 =>
      simp only [List.mem_cons, List.mem_singleton] at hmem2
      rcases hmem2 with h1 | h1
      · cases h1
        unfold surfaceIdOf at hv2
        split at hv2
        · next su hsu =>
          exact hasDanger_jsGet hsu (hasDanger_getD _ hv2)
        · cases hv2
      · rcases h1 with h1 | h1
        · cases h1
          cases hv2 with
          | arrMem hmem3 hv3 =>
            next x =>
            rw [List.mem_map] at hmem3
            obtain ⟨e, hel, hne⟩ := hmem3
            cases hne
            exact hasDanger_componentsOf hel (hasDanger_normEntry hv3)
        · cases h1

theorem sus_none_inv (d : Json) (h : validateSurfaceUpdateStructure d = none) :
    ∃ su, jsGet d (cl "surfaceUpdate") = some su ∧
      (∃ sid, jsGet su (cl "surfaceId") = some (.str sid)) ∧
      ∃ l, jsGet su (cl "components") = some (.arr l) := by
  unfold validateSurfaceUpdateStructure at h
  split at h
  · cases h
  · split at h
    · cases h
    · split at h
      · cases h
      · next su hsu =>
        split at h
        · cases h
        · split at h
          · next sid hsid =>
            split at h
            · next l hl => exact ⟨su, hsu, ⟨sid, hsid⟩, l, hl⟩
            · cases h
          · cases h

theorem componentsOf_eq (d su : Json) (l : List Json)
    (hsu : jsGet d (cl "surfaceUpdate") = some su)
    (hl : jsGet su (cl "components") = some (.arr l)) : componentsOf d = l := by
  simp only [componentsOf, hsu, hl]

theorem surfaceIdOf_eq (d su : Json) (v : Option Json)
    (hsu : jsGet d (cl "surfaceUpdate") = some su)
    (hv : jsGet su (cl "surfaceId") = v) : surfaceIdOf d = v := by
  simp only [surfaceIdOf, hsu, hv]

theorem surfaceIdOf_print (S : Json) :
    surfaceIdOf (print S) = some ((surfaceIdOf S).getD .null) := rfl

theorem componentsOf_print (S : Json) :
    componentsOf (print S) = (componentsOf S).map normEntry := rfl

theorem validateSUS_print (S : Json) (sid : List Char)
    (hsid : surfaceIdOf S = some (.str sid)) :
    validateSurfaceUpdateStructure (print S) = none := by
  show validateSurfaceUpdateStructure
      (.obj [(cl "surfaceUpdate", .obj [
        (cl "surfaceId", (surfaceIdOf S).getD .null),
        (cl "components", .arr ((componentsOf S).map normEntry))])]) = none
  rw [hsid]
  rfl

theorem checkJson_none_iff (d : Json) (p : List Char) :
    checkJson d p = none ↔ ¬ HasDanger d := by
  rw [← checkJson_isSome d p]
  cases checkJson d p <;> simp

theorem jsKeys_normProps (p : Json) : jsKeys (normProps p) = sortedKeysOf p := by
  show ((sortedKeysOf p).map (fun k => (k, (jsGet p k).getD Json.null))).map Prod.fst =
    sortedKeysOf p
  rw [List.map_map]
  rw [show (Prod.fst ∘ fun k : List Char => (k, (jsGet p k).getD Json.null)) = id
    from rfl]
  exact List.map_id _

theorem sorted_sortedKeysOf (p : Json) : List.Sorted KeyLe (sortedKeysOf p) :=
  List.sorted_insertionSort KeyLe (jsKeys p)

theorem sortedKeysOf_normProps (p : Json) :
    sortedKeysOf (normProps p) = sortedKeysOf p := by
  show List.insertionSort KeyLe (jsKeys (normProps p)) = sortedKeysOf p
  rw [jsKeys_normProps]
  exact List.Sorted.insertionSort_eq (sorted_sortedKeysOf p)

theorem normProps_idem (p : Json) : normProps (normProps p) = normProps p := by
  rw [show normProps (normProps p) = .obj ((sortedKeysOf (normProps p)).map
      (fun k => (k, (jsGet (normProps p) k).getD .null))) from rfl,
    sortedKeysOf_normProps]
  show _ = Json.obj ((sortedKeysOf p).map (fun k => (k, (jsGet p k).getD .null)))
  congr 1
  apply List.map_congr_left
  intro k hk
  rw [show jsGet (normProps p) k = lookupK k ((sortedKeysOf p).map
      (fun k2 => (k2, (jsGet p k2).getD .null))) from rfl,
    lookupK_map_keys_mem _ _ _ hk]
  rfl

theorem normalizeComponent_idem (c : Json) :
    normalizeComponent (normalizeComponent c) = normalizeComponent c := by
  cases hg : getComponentType c with
  | none =>
    have h1 : normalizeComponent c = c := by
      unfold normalizeComponent; rw [hg]
    rw [h1, h1]
  | some t =>
    have h1 : normalizeComponent c =
        .obj [(t, normProps ((jsGet c t).getD .null))] := by
      unfold normalizeComponent; rw [hg]
    have h3 : jsGet (Json.obj [(t, normProps ((jsGet c t).getD .null))]) t =
        some (normProps ((jsGet c t).getD .null)) := by
      show (if t = t then some (normProps ((jsGet c t).getD .null))
        else lookupK t []) = some (normProps ((jsGet c t).getD .null))
      rw [if_pos rfl]
    rw [h1]
    show Json.obj [(t, normProps ((jsGet
        (Json.obj [(t, normProps ((jsGet c t).getD .null))]) t).getD .null))] =
      Json.obj [(t, normProps ((jsGet c t).getD .null))]
    rw [h3]
    show Json.obj [(t, normProps (normProps ((jsGet c t).getD .null)))] = _
    rw [normProps_idem]

theorem normEntry_idem (e : Json) : normEntry (normEntry e) = normEntry e := by
  have h1 : jsGet (normEntry e) (cl "id") =
      some ((jsGet e (cl "id")).getD .null) := rfl
  have h2 : jsGet (normEntry e) (cl "component") =
      some (normalizeComponent ((jsGet e (cl "component")).getD .null)) := rfl
  show Json.obj [(cl "id", (jsGet (normEntry e) (cl "id")).getD .null),
      (cl "component",
        normalizeComponent ((jsGet (normEntry e) (cl "component")).getD .null))] =
    normEntry e
  rw [h1, h2]
  show Json.obj [(cl "id", (jsGet e (cl "id")).getD .null),
      (cl "component", normalizeComponent (normalizeComponent
        ((jsGet e (cl "component")).getD .null)))] = _
  rw [normalizeComponent_idem]
  rfl

theorem print_print (S : Json) : print (print S) = print S := by
  show Json.obj [(cl "surfaceUpdate", .obj [
      (cl "surfaceId", (surfaceIdOf (print S)).getD .null),
      (cl "components", .arr ((componentsOf (print S)).map normEntry))])] = print S
  rw [surfaceIdOf_print, componentsOf_print, List.map_map]
  have hcomp : normEntry ∘ normEntry = normEntry := funext normEntry_idem
  rw [hcomp]
  rfl

theorem truthyObj_of_false (v : Json)
    (h : (!truthy v || decide (jsTypeof v ≠ JsType.object)) = false) :
    truthy v = true ∧ jsTypeof v = JsType.object := by
  rcases Bool.or_eq_false_iff.mp h with ⟨h1, h2⟩
  refine ⟨?_, not_not.mp (of_decide_eq_false h2)⟩
  cases ht : truthy v
  · rw [ht] at h1; cases h1
  · rfl

theorem vce_none_inv (e : Json) (i : Nat) (h : validateComponentEntry e i = none) :
    truthy e = true ∧ jsTypeof e = JsType.object ∧
    ∃ s, jsGet e (cl "id") = some (.str s) ∧ jsTrim s ≠ [] ∧
    ∃ comp, jsGet e (cl "component") = some comp ∧ truthy comp = true ∧
      jsTypeof comp = JsType.object ∧ ∃ t0, getComponentType comp = some t0 := by
  unfold validateComponentEntry at h
  split at h
  · cases h
  · next hc1 =>
    rw [Bool.not_eq_true] at hc1
    obtain ⟨hte, hoe⟩ := truthyObj_of_false e hc1
    split at h
    · next s hid =>
      split at h
      · cases h
      · next htrim =>
        split at h
        · next comp hcomp =>
          split at h
          · cases h
          · next hc2 =>
            rw [Bool.not_eq_true] at hc2
            obtain ⟨htc, hoc⟩ := truthyObj_of_false comp hc2
            split at h
            · next t0 hg =>
              exact ⟨hte, hoe, s, hid, htrim, comp, hcomp, htc, hoc, t0, hg⟩
            · cases h
        · cases h
    · cases h

theorem normalizeComponent_of_type {c : Json} {t : List Char}
    (hg : getComponentType c = some t) :
    normalizeComponent c = .obj [(t, normProps ((jsGet c t).getD .null))] := by
  unfold normalizeComponent; rw [hg]

theorem getCT_single (t : List Char) (v : Json) :
    getComponentType (Json.obj [(t, v)]) = some t := rfl

theorem getComponentType_norm {c : Json} {t : List Char}
    (hg : getComponentType c = some t) :
    getComponentType (normalizeComponent c) = some t := by
  rw [normalizeComponent_of_type hg]
  exact getCT_single _ _

theorem getComponentType_inv (c : Json) (t : List Char)
    (hg : getComponentType c = some t) (hw : isWhitelisted t = true) :
    ∃ p, c = .obj [(t, p)] ∧ jsGet c t = some p := by
  unfold getComponentType at hg
  split at hg
  · cases hg
  · next hcond =>
    rw [Bool.not_eq_true] at hcond
    obtain ⟨htc, hoc⟩ := truthyObj_of_false c hcond
    split at hg
    · next k hk =>
      cases hg
      cases c with
      | null => cases htc
      | bool b => cases hoc
      | num n => cases hoc
      | str s => cases hoc
      | arr xs =>
        exfalso
        simp only [jsKeys] at hk
        have hlen : xs.length = 1 := by
          have := congrArg List.length hk
          simpa using this
        rw [hlen, show List.range 1 = [0] from rfl] at hk
        simp only [List.map_cons, List.map_nil] at hk
        injection hk with h2 _
        rw [← h2] at hw
        exact absurd hw (by decide)
      | obj m =>
        cases m with
        | nil => cases hk
        | cons p0 rest =>
          obtain ⟨k0, v0⟩ := p0
          simp only [jsKeys, List.map_cons] at hk
          injection hk with h1 h2
          have hrest : rest = [] := List.map_eq_nil_iff.mp h2
          subst hrest
          subst h1
          refine ⟨v0, rfl, ?_⟩
          show (if k0 = k0 then some v0 else lookupK k0 []) = some v0
          rw [if_pos rfl]
    · cases hg

theorem vct_norm (c : Json) (id t : List Char)
    (h : validateComponentType c id = .ok t) :
    validateComponentType (normalizeComponent c) id = .ok t := by
  obtain ⟨hg, hw⟩ := vct_ok c id t h
  unfold validateComponentType
  rw [getComponentType_norm hg]
  show (if isWhitelisted t = true then Except.ok t
    else Except.error
      (PErr.mk .UNKNOWN_COMPONENT (.unknownComponent t COMPONENT_WHITELIST))) =
    Except.ok t
  rw [if_pos hw]

theorem jsGet_normEntry_id (e : Json) :
    jsGet (normEntry e) (cl "id") = some ((jsGet e (cl "id")).getD .null) := rfl

theorem jsGet_normEntry_component (e : Json) :
    jsGet (normEntry e) (cl "component") =
      some (normalizeComponent ((jsGet e (cl "component")).getD .null)) := rfl

theorem idOf_normEntry (e : Json) : idOf (normEntry e) = idOf e := by
  unfold idOf
  rw [jsGet_normEntry_id]
  cases hj : jsGet e (cl "id") with
  | none => rfl
  | some v => cases v <;> rfl

theorem vce_norm (e : Json) (i : Nat) (h : validateComponentEntry e i = none) :
    validateComponentEntry (normEntry e) i = none := by
  obtain ⟨hte, hoe, s, hid, htrim, comp, hcomp, htc, hoc, t0, hg⟩ := vce_none_inv e i h
  have hidn : jsGet (normEntry e) (cl "id") = some (Json.str s) := by
    rw [jsGet_normEntry_id, hid]
    rfl
  have hcompn : jsGet (normEntry e) (cl "component") =
      some (normalizeComponent comp) := by
    rw [jsGet_normEntry_component, hcomp]
    rfl
  have hnorm := normalizeComponent_of_type hg
  unfold validateComponentEntry
  rw [hidn]
  dsimp only
  rw [if_neg htrim, hcompn, hnorm]
  dsimp only
  rw [show (!truthy (normEntry e) || decide (jsTypeof (normEntry e) ≠ JsType.object))
      = false from rfl,
    if_neg Bool.false_ne_true,
    show (!truthy (Json.obj [(t0, normProps ((jsGet comp t0).getD Json.null))]) ||
      decide (jsTypeof (Json.obj [(t0, normProps ((jsGet comp t0).getD Json.null))])
        ≠ JsType.object)) = false from rfl,
    if_neg Bool.false_ne_true, getCT_single]

theorem componentLoop_norm : ∀ (l : List Json) (seen : List (List Char)) (i : Nat)
    (ids : List (List Char)), componentLoop l seen i = .ok ids →
    componentLoop (l.map normEntry) seen i = .ok ids := by
  intro l
  induction l with
  | nil => intro seen i ids h; exact h
  | cons x rest ih =>
    intro seen i ids h
    simp only [componentLoop] at h
    split at h
    · cases h
    · next hve =>
      split at h
      · cases h
      · next hdup =>
        split at h
        · cases h
        · next t hvct =>
          simp only [List.map_cons, componentLoop]
          rw [vce_norm x i hve]
          dsimp only
          rw [idOf_normEntry]
          rw [if_neg hdup]
          cases hj : jsGet x (cl "component") with
          | some c0 =>
            rw [hj] at hvct
            dsimp only at hvct
            rw [jsGet_normEntry_component, hj]
            dsimp only
            simp only [Option.getD_some]
            rw [vct_norm _ _ _ hvct]
            exact ih _ _ _ h
          | none =>
            rw [hj] at hvct
            dsimp only at hvct
            rw [jsGet_normEntry_component, hj]
            dsimp only
            simp only [Option.getD_none]
            rw [vct_norm _ _ _ hvct]
            exact ih _ _ _ h

theorem jsGetExc_ok_inv (v : Json) (k : List Char) (w : Option Json)
    (h : jsGetExc v k = .ok w) : jsGet v k = w := by
  cases v <;> simp_all [jsGetExc]

theorem refChildCheck_ok_entry (type : Option (List Char)) (propsO : Option Json)
    (e e2 : Json) (ids : List (List Char))
    (h : refChildCheck type propsO e ids = .ok) :
    refChildCheck type propsO e2 ids = .ok := by
  unfold refChildCheck at h ⊢
  by_cases hb : type = some (cl "Button")
  · rw [if_pos hb] at h ⊢
    cases propsO with
    | none => cases h
    | some props =>
      cases props with
      | null => cases h
      | bool b => rfl
      | num n => rfl
      | str s => rfl
      | arr l => rfl
      | obj m =>
        dsimp only at h ⊢
        cases hc : jsGet (Json.obj m) (cl "child") with
        | none => rfl
        | some child =>
          rw [hc] at h
          dsimp only at h ⊢
          by_cases ht : truthy child = true
          · rw [if_pos ht] at h ⊢
            by_cases hh : idsHas ids child = true
            · rw [if_pos hh]
            · rw [if_neg hh] at h; cases h
          · rw [if_neg ht]
  · rw [if_neg hb]

theorem refRefCheck_ok_entry (propsO : Option Json) (e e2 : Json)
    (ids : List (List Char)) (h : refRefCheck propsO e ids = .ok) :
    refRefCheck propsO e2 ids = .ok := by
  unfold refRefCheck at h ⊢
  cases propsO with
  | none => cases h
  | some props =>
    cases props with
    | null => cases h
    | bool b => rfl
    | num n => rfl
    | str s => rfl
    | arr l => rfl
    | obj m =>
      dsimp only at h ⊢
      cases hc : jsGet (Json.obj m) (cl "ref") with
      | none => rfl
      | some v =>
        rw [hc] at h
        cases v with
        | str r =>
          dsimp only at h ⊢
          by_cases hr : r ≠ []
          · rw [if_pos hr] at h ⊢
            by_cases hm : r ∈ ids
            · rw [if_pos hm]
            · rw [if_neg hm] at h; cases h
          · rw [if_neg hr]
        | null => rfl
        | bool b => rfl
        | num n => rfl
        | arr l => rfl
        | obj m2 => rfl

theorem refChildCheck_norm (type : Option (List Char)) (p : Json)
    (e e2 : Json) (ids : List (List Char))
    (h : refChildCheck type (some p) e ids = .ok) :
    refChildCheck type (some (normProps p)) e2 ids = .ok := by
  unfold refChildCheck at h ⊢
  by_cases hb : type = some (cl "Button")
  · rw [if_pos hb] at h ⊢
    show (match jsGet (normProps p) (cl "child") with
      | some child =>
        if truthy child then
          if idsHas ids child then RefOut.ok
          else RefOut.err ⟨.INVALID_REFERENCE,
            .invalidReference (jsGet e2 (cl "id")) child⟩
        else RefOut.ok
      | none => RefOut.ok) = RefOut.ok
    rw [jsGet_normProps p (cl "child") (by decide) (by decide)]
    cases p with
    | null => cases h
    | bool b => rfl
    | num n => rfl
    | str s => rfl
    | arr l => rfl
    | obj m =>
      dsimp only at h
      cases hc : jsGet (Json.obj m) (cl "child") with
      | none => rfl
      | some child =>
        rw [hc] at h
        dsimp only at h ⊢
        by_cases ht : truthy child = true
        · rw [if_pos ht] at h ⊢
          by_cases hh : idsHas ids child = true
          · rw [if_pos hh]
          · rw [if_neg hh] at h; cases h
        · rw [if_neg ht]
  · rw [if_neg hb]

theorem refRefCheck_norm (p : Json) (e e2 : Json) (ids : List (List Char))
    (h : refRefCheck (some p) e ids = .ok) :
    refRefCheck (some (normProps p)) e2 ids = .ok := by
  unfold refRefCheck at h ⊢
  show (match jsGet (normProps p) (cl "ref") with
    | some (.str r) =>
      if r ≠ [] then
        if r ∈ ids then RefOut.ok
        else RefOut.err ⟨.INVALID_REFERENCE,
          .invalidReference (jsGet e2 (cl "id")) (.str r)⟩
      else RefOut.ok
    | _ => RefOut.ok) = RefOut.ok
  rw [jsGet_normProps p (cl "ref") (by decide) (by decide)]
  cases p with
  | null => cases h
  | bool b => rfl
  | num n => rfl
  | str s => rfl
  | arr l => rfl
  | obj m =>
    dsimp only at h
    cases hc : jsGet (Json.obj m) (cl "ref") with
    | none => rfl
    | some v =>
      rw [hc] at h
      cases v with
      | str r =>
        dsimp only at h ⊢
        by_cases hr : r ≠ []
        · rw [if_pos hr] at h ⊢
          by_cases hm : r ∈ ids
          · rw [if_pos hm]
          · rw [if_neg hm] at h; cases h
        · rw [if_neg hr]
      | null => rfl
      | bool b => rfl
      | num n => rfl
      | arr l => rfl
      | obj m2 => rfl

theorem resolveRefChecks_none_props (ty : Option (List Char)) (e : Json)
    (ids : List (List Char)) : resolveRefChecks ty none e ids = .crash := by
  unfold resolveRefChecks refChildCheck refRefCheck
  by_cases hb : ty = some (cl "Button")
  · rw [if_pos hb]
  · rw [if_neg hb]

theorem resolveRefChecks_null_props (ty : Option (List Char)) (e : Json)
    (ids : List (List Char)) : resolveRefChecks ty (some .null) e ids = .crash := by
  unfold resolveRefChecks refChildCheck refRefCheck
  by_cases hb : ty = some (cl "Button")
  · rw [if_pos hb]
  · rw [if_neg hb]

theorem resolveRefEntry_norm (e : Json) (ids : List (List Char))
    (h : resolveRefEntry e ids = .ok) :
    resolveRefEntry (normEntry e) ids = .ok := by
  unfold resolveRefEntry at h
  cases hjc : jsGetExc e (cl "component") with
  | error u => rw [hjc] at h; cases h
  | ok compO =>
    rw [hjc] at h
    try dsimp only at h
    unfold resolveRefEntry
    rw [show jsGetExc (normEntry e) (cl "component") =
      Except.ok (some (normalizeComponent ((jsGet e (cl "component")).getD .null)))
      from rfl]
    dsimp only
    rw [jsGetExc_ok_inv _ _ _ hjc]
    cases compO with
    | none =>
      rw [show resolveRefEntryBody none e ids = RefOut.crash from rfl] at h
      cases h
    | some c =>
      cases hg : getComponentType c with
      | none =>
        have hnc : normalizeComponent c = c := by unfold normalizeComponent; rw [hg]
        simp only [Option.getD_some]
        rw [hnc]
        simp only [resolveRefEntryBody] at h ⊢
        try try dsimp only at h ⊢
        rw [hg] at h ⊢
        try try dsimp only at h ⊢
        cases hpe : propsExc (some c) (cl "null") with
        | error u => rw [hpe] at h; cases h
        | ok propsO =>
          rw [hpe] at h
          try dsimp only at h ⊢
          unfold resolveRefChecks at h ⊢
          cases hcc : refChildCheck none propsO e ids with
          | ok =>
            rw [hcc] at h
            try dsimp only at h
            rw [refChildCheck_ok_entry none propsO e (normEntry e) ids hcc]
            exact refRefCheck_ok_entry propsO e (normEntry e) ids h
          | err e2 => rw [hcc] at h; cases h
          | crash => rw [hcc] at h; cases h
      | some t =>
        simp only [Option.getD_some]
        have hnorm := normalizeComponent_of_type hg
        rw [hnorm]
        simp only [resolveRefEntryBody] at h ⊢
        try try dsimp only at h ⊢
        rw [hg] at h
        try dsimp only at h
        rw [getCT_single]
        try dsimp only
        have hpx : propsExc (some (Json.obj [(t, normProps ((jsGet c t).getD .null))])) t =
            Except.ok (some (normProps ((jsGet c t).getD .null))) := by
          show Except.ok (jsGet (Json.obj [(t, normProps ((jsGet c t).getD .null))]) t) =
            Except.ok (some (normProps ((jsGet c t).getD .null)))
          rw [show jsGet (Json.obj [(t, normProps ((jsGet c t).getD .null))]) t =
            some (normProps ((jsGet c t).getD .null)) from by
              show (if t = t then some (normProps ((jsGet c t).getD .null))
                else lookupK t []) = some (normProps ((jsGet c t).getD .null))
              rw [if_pos rfl]]
        rw [hpx]
        try dsimp only
        cases hpe : propsExc (some c) t with
        | error u => rw [hpe] at h; cases h
        | ok propsO =>
          rw [hpe] at h
          try dsimp only at h
          have hc0 : jsGet c t = propsO := jsGetExc_ok_inv c t propsO hpe
          cases propsO with
          | none =>
            rw [resolveRefChecks_none_props] at h; cases h
          | some props =>
            rw [hc0]
            simp only [Option.getD_some]
            unfold resolveRefChecks at h ⊢
            cases hcc : refChildCheck (some t) (some props) e ids with
            | ok =>
              rw [hcc] at h
              try dsimp only at h
              rw [refChildCheck_norm (some t) props e (normEntry e) ids hcc]
              exact refRefCheck_norm props e (normEntry e) ids h
            | err e2 => rw [hcc] at h; cases h
            | crash => rw [hcc] at h; cases h

theorem resolveRefs_norm (l : List Json) (ids : List (List Char))
    (h : resolveRefs l ids = .ok) :
    resolveRefs (l.map normEntry) ids = .ok := by
  rw [resolveRefs_ok_iff] at h ⊢
  intro e2 he2
  rw [List.mem_map] at he2
  obtain ⟨e, hel, hne⟩ := he2
  rw [← hne]
  exact resolveRefEntry_norm e ids (h e hel)

/-- **C4.** Canonical round trip: for every surface `S` accepted by
`parse`, `parse (print S)` succeeds and returns exactly the canonical
form `print S` (components in their original order, each entry
normalised); printing is idempotent, so
`print (parse (print S)) = print (print S) = print S` — the
string-level equation `print(parse(print S)) == print S`; the canonical
components are the original components in order under `normEntry`, with
ids preserved positionally; and every normalised property object has its
keys sorted. -/
theorem C4_round_trip (S : Json) (h : parse S = .ok S) :
    parse (print S) = .ok (print S) ∧
    print (print S) = print S ∧
    componentsOf (print S) = (componentsOf S).map normEntry ∧
    (componentsOf (print S)).map idOf = (componentsOf S).map idOf ∧
    ∀ props : Json, List.Sorted KeyLe (jsKeys (normProps props)) := by
  obtain ⟨-, hsus, hcj, ids, hl, hr⟩ := parse_ok_inv S S h
  obtain ⟨su, hsu, ⟨sid, hsid⟩, l, hlc⟩ := sus_none_inv S hsus
  have hsidS : surfaceIdOf S = some (.str sid) := surfaceIdOf_eq S su _ hsu hsid
  refine ⟨?_, print_print S, componentsOf_print S, ?_, ?_⟩
  · apply parse_ok_intro (print S) ids
    · exact validateSUS_print S sid hsidS
    · rw [checkJson_none_iff]
      intro hd
      exact (checkJson_none_iff S []).mp hcj (hasDanger_print hd)
    · rw [componentsOf_print]
      exact componentLoop_norm _ _ _ _ hl
    · rw [componentsOf_print]
      exact resolveRefs_norm _ _ hr
  · rw [componentsOf_print, List.map_map]
    apply List.map_congr_left
    intro e _
    exact idOf_normEntry e
  · intro props
    rw [jsKeys_normProps]
    exact sorted_sortedKeysOf props

/-- Witness for C4 at a concrete accepted surface with unusual (string
and number) component props. -/
theorem C4_round_trip_witness :
    parse surfWeird = .ok surfWeird ∧
    parse (print surfWeird) = .ok (print surfWeird) ∧
    print (print surfWeird) = print surfWeird :=
  ⟨rfl, (C4_round_trip surfWeird rfl).1, (C4_round_trip surfWeird rfl).2.1⟩
